import Mathlib

set_option maxRecDepth 16000

/-!
Verification development for the Paragraph_Correction_Using_NLP repository.

The repository's core is a token-level spelling/grammar pipeline:

* `models/spell_checker.py` : tokenizer `_retok`, joiner `_smart_join`,
  abbreviation table `ABBREV`, the proper-noun lexicon and fuzzy matcher
  `_closest_proper` (built on difflib's `get_close_matches`), post edits
  `_light_post_edits` and the lock-recording normalizer
  `correct_spelling_with_stats`.
* `models/grammar_corrector.py` : tokenizer `_simple_tokens`, joiner
  `_smart_join` and the cross-rewrite guard `enforce_locked_proper_nouns`.
* `utils/academic_rules.py` : the heuristic rewrite `prefer_studying`.

The embedding below is a direct translation of those functions.  Python
strings are modeled as Lean `String` / `List Char`; the character classes of
the Python regexes (`[A-Za-z]`, `\d`, `\w`, `\s`) are modeled by their ASCII
fragments (all string constants appearing in the repository and in the
concrete test inputs are ASCII).  Python floats (the fuzzy cutoffs and
difflib ratios) are modeled as exact rationals; every comparison performed in
the concrete computations below is far away from any double-rounding
boundary, so the order relations agree with the Python float comparisons.

Regex scans (`re.findall`, `re.sub`) are implemented as left-to-right
character scanners written with structural recursion so that every
definition is kernel-computable; where the natural phrasing of the Python
code is a recursion on a non-structural suffix, the scanner is additionally
related by a theorem to a direct "span"-style reference definition
(`tokenizeAux` below).

The external collaborators identified by the specification (the dictionary
corrector `pyspellchecker` and the seq2seq rewriter) are not part of the
repository; they enter the embedding as opaque function parameters
(`known : String → Bool`, `suggest : String → Option String`), exactly the
interface the specification assigns to the "Dictionary Corrector".
-/

/-! ### Character classes (ASCII model of the Python regex classes) -/

/-- The space character (written via its code point). -/
def SPc : Char := Char.ofNat 32

/-- The apostrophe character. -/
def APOS : Char := Char.ofNat 39

/-- The double-quote character. -/
def DQUO : Char := Char.ofNat 34

/-- `[A-Za-z]` (code points 65-90 and 97-122). -/
def isLetterC (c : Char) : Bool :=
  (65 ≤ c.toNat && c.toNat ≤ 90) || (97 ≤ c.toNat && c.toNat ≤ 122)

/-- `\d` (ASCII fragment; code points 48-57). -/
def isDigitC (c : Char) : Bool := 48 ≤ c.toNat && c.toNat ≤ 57

/-- `[A-Za-z0-9]` / Python `str.isalnum` (ASCII fragment). -/
def isAlnumC (c : Char) : Bool := isLetterC c || isDigitC c

/-- `\w` (ASCII fragment): letters, digits and underscore (code 95). -/
def isWordCharC (c : Char) : Bool := isAlnumC c || c.toNat = 95

/-- `\s` / Python `str.strip` whitespace (ASCII fragment:
space, tab, newline, carriage return, vertical tab, form feed). -/
def isSpaceC (c : Char) : Bool :=
  c.toNat = 32 || c.toNat = 9 || c.toNat = 10 || c.toNat = 13 ||
  c.toNat = 11 || c.toNat = 12

/-- `[A-Za-z\-']`: the continuation class of a word token (letter, hyphen
code 45, apostrophe code 39). -/
def isWordContC (c : Char) : Bool := isLetterC c || c.toNat = 45 || c.toNat = 39

/-- The sentence punctuation class `[,.;:!?]` of the joiners' final `re.sub`. -/
def isSentPunctC (c : Char) : Bool :=
  c = ',' || c = '.' || c = ';' || c = ':' || c = '!' || c = '?'

/-- `'A' ≤ c ≤ 'Z'`. -/
def isUpperC (c : Char) : Bool := 65 ≤ c.toNat && c.toNat ≤ 90

/-- `'a' ≤ c ≤ 'z'`. -/
def isLowerAZ (c : Char) : Bool := 97 ≤ c.toNat && c.toNat ≤ 122

/-- Python `str.lower`, per character (ASCII fragment). -/
def toLowerC (c : Char) : Char :=
  if isUpperC c then Char.ofNat (c.toNat + 32) else c

/-- Python `str.upper`, per character (ASCII fragment). -/
def toUpperC (c : Char) : Char :=
  if isLowerAZ c then Char.ofNat (c.toNat - 32) else c

/-- Python `str.lower` on a whole string. -/
def lowerS (s : String) : String := String.mk (s.data.map toLowerC)

/-! ### The shared tokenizer

Both `spell_checker._retok` and `grammar_corrector._simple_tokens` are
`re.findall(r"[A-Za-z][A-Za-z\-']*|\d+|[^\w\s]", text)` (the former passes
`flags=re.UNICODE`, which is the default for `str` patterns in Python 3 and
hence a no-op).  `re.findall` scans left to right; at each position it emits
the first alternative that matches (greedily), and characters matching no
alternative (whitespace, and `\w` characters that are not letters or digits,
i.e. `_`) are skipped.

`findallGo` implements this scan in one structurally recursive pass;
`cur = some (true, acc)` means a word token with (reversed) content `acc` is
being read, `cur = some (false, acc)` a number token.  `tokenizeAux` is the
same scan phrased with `takeWhile`/`dropWhile`, mirroring the three regex
alternatives literally; `findallGo_eq_tokenizeAux` proves them equal. -/

def findallGo : Option (Bool × List Char) → List Char → List (List Char)
  | some (_, acc), [] => [acc.reverse]
  | none, [] => []
  | cur, c :: rest =>
    let disp : List (List Char) :=
      if isLetterC c then findallGo (some (true, [c])) rest
      else if isDigitC c then findallGo (some (false, [c])) rest
      else if isWordCharC c || isSpaceC c then findallGo none rest
      else [c] :: findallGo none rest
    match cur with
    | some (true, acc) =>
      if isWordContC c then findallGo (some (true, c :: acc)) rest
      else acc.reverse :: disp
    | some (false, acc) =>
      if isDigitC c then findallGo (some (false, c :: acc)) rest
      else acc.reverse :: disp
    | none => disp

theorem length_dropWhile_le_tok (p : Char → Bool) (l : List Char) :
    (l.dropWhile p).length ≤ l.length := by
  induction l with
  | nil => simp [List.dropWhile]
  | cons c cs ih =>
      rw [List.dropWhile_cons]
      cases h : p c
      · simp
      · simp only [if_true]
        simp only [List.length_cons]
        omega

/-- Reference form of the tokenizer: the three alternatives of
`[A-Za-z][A-Za-z\-']*|\d+|[^\w\s]`, tried in order at every position. -/
def tokenizeAux : List Char → List (List Char)
  | [] => []
  | c :: rest =>
    if isLetterC c then
      (c :: rest.takeWhile isWordContC) :: tokenizeAux (rest.dropWhile isWordContC)
    else if isDigitC c then
      (c :: rest.takeWhile isDigitC) :: tokenizeAux (rest.dropWhile isDigitC)
    else if isWordCharC c || isSpaceC c then
      tokenizeAux rest
    else
      [c] :: tokenizeAux rest
termination_by l => l.length
decreasing_by
  · simp only [List.length_cons]
    exact Nat.lt_succ_of_le (length_dropWhile_le_tok _ _)
  · simp only [List.length_cons]
    exact Nat.lt_succ_of_le (length_dropWhile_le_tok _ _)
  · simp only [List.length_cons]; omega
  · simp only [List.length_cons]; omega

theorem findallGo_word_eq (l : List Char) : ∀ acc : List Char,
    findallGo (some (true, acc)) l =
      (acc.reverse ++ l.takeWhile isWordContC) :: tokenizeAux (l.dropWhile isWordContC) ∧
    findallGo (some (false, acc)) l =
      (acc.reverse ++ l.takeWhile isDigitC) :: tokenizeAux (l.dropWhile isDigitC) ∧
    findallGo none l = tokenizeAux l := by
  induction l with
  | nil =>
      intro acc
      refine ⟨?_, ?_, ?_⟩ <;> simp [findallGo, tokenizeAux, List.takeWhile, List.dropWhile]
  | cons c rest ih =>
      intro acc
      refine ⟨?_, ?_, ?_⟩
      · by_cases hw : isWordContC c = true
        · simp only [findallGo, hw, if_true, List.takeWhile_cons, List.dropWhile_cons]
          have h := (ih (c :: acc)).1
          rw [h]
          simp
        · simp only [findallGo, hw, Bool.false_eq_true, if_false,
            List.takeWhile_cons, List.dropWhile_cons]
          have hlet : isLetterC c = false := by
            cases h : isLetterC c
            · rfl
            · exfalso; apply hw; simp [isWordContC, h]
          by_cases hd : isDigitC c = true
          · have h2 := (ih [c]).2.1
            simp only [hlet, Bool.false_eq_true, if_false, hd, if_true, h2,
              tokenizeAux, List.reverse_cons, List.reverse_nil, List.nil_append,
              List.append_nil, List.singleton_append]
          · by_cases hsk : (isWordCharC c || isSpaceC c) = true
            · have h3 := (ih []).2.2
              simp [hlet, hd, hsk, h3, tokenizeAux]
            · have h3 := (ih []).2.2
              simp [hlet, hd, hsk, h3, tokenizeAux]
      · by_cases hd : isDigitC c = true
        · simp only [findallGo, hd, if_true, List.takeWhile_cons, List.dropWhile_cons]
          have h := (ih (c :: acc)).2.1
          rw [h]
          simp
        · simp only [findallGo, hd, Bool.false_eq_true, if_false,
            List.takeWhile_cons, List.dropWhile_cons]
          by_cases hlet : isLetterC c = true
          · have h1 := (ih [c]).1
            simp only [hlet, if_true, h1, tokenizeAux, List.reverse_cons,
              List.reverse_nil, List.nil_append, List.append_nil,
              List.singleton_append]
          · by_cases hsk : (isWordCharC c || isSpaceC c) = true
            · have h3 := (ih []).2.2
              simp [hlet, hd, hsk, h3, tokenizeAux]
            · have h3 := (ih []).2.2
              simp [hlet, hd, hsk, h3, tokenizeAux]
      · by_cases hlet : isLetterC c = true
        · have h1 := (ih [c]).1
          simp only [findallGo, hlet, if_true, h1, tokenizeAux, List.reverse_cons,
            List.reverse_nil, List.nil_append, List.singleton_append]
        · by_cases hd : isDigitC c = true
          · have h2 := (ih [c]).2.1
            simp only [findallGo, hlet, Bool.false_eq_true, if_false, hd, if_true, h2,
              tokenizeAux, List.reverse_cons, List.reverse_nil, List.nil_append,
              List.singleton_append]
          · by_cases hsk : (isWordCharC c || isSpaceC c) = true
            · have h3 := (ih []).2.2
              simp [findallGo, hlet, hd, hsk, h3, tokenizeAux]
            · have h3 := (ih []).2.2
              simp [findallGo, hlet, hd, hsk, h3, tokenizeAux]

/-- The structural scan agrees with the span-style reference form. -/
theorem findallGo_eq_tokenizeAux (l : List Char) : findallGo none l = tokenizeAux l :=
  (findallGo_word_eq l []).2.2

/-- Does a token start with `[A-Za-z]` (Python `re.match(r"[A-Za-z]", t)`)? -/
def startsLetterS (t : String) : Bool :=
  match t.data with
  | c :: _ => isLetterC c
  | [] => false

/-- Does a char list start with `[A-Za-z0-9]`? -/
def startsAlnumL (t : List Char) : Bool :=
  match t with
  | c :: _ => isAlnumC c
  | [] => false

/-! ### The joiners

Both `_smart_join`s accumulate a string `out`: a token starting with
`[A-Za-z0-9]` is appended with a single leading space unless `out` is empty,
any other token is appended directly.  (In both files the branch on
`out[-1]` is redundant: when `out` is non-empty, both of its arms prepend a
single space; the embedding keeps the branch.)  Afterwards
`re.sub(r"\s+([,.;:!?])", r"\1", out).strip()` deletes whitespace runs
immediately preceding sentence punctuation and strips the ends. -/

/-- Python `str.strip()` on a char list. -/
def stripL (l : List Char) : List Char :=
  ((l.dropWhile isSpaceC).reverse.dropWhile isSpaceC).reverse

/-- `re.sub(r"\s+(P)", r"\1", ·)` for a one-character class `P`: a maximal
whitespace run immediately followed by a `P`-character is deleted; any other
whitespace run is kept verbatim; the scan resumes after the `P`-character.
`run = some r` holds the whitespace run read so far. -/
def squeezeGo (q : Char → Bool) : Option (List Char) → List Char → List Char
  | some r, [] => r
  | none, [] => []
  | some r, c :: rest =>
    if isSpaceC c then squeezeGo q (some (r ++ [c])) rest
    else if q c then c :: squeezeGo q none rest
    else r ++ c :: squeezeGo q none rest
  | none, c :: rest =>
    if isSpaceC c then squeezeGo q (some [c]) rest
    else c :: squeezeGo q none rest

/-- `re.sub(r"\s+(P)", r"\1", l)`. -/
def squeezeBefore (q : Char → Bool) (l : List Char) : List Char :=
  squeezeGo q none l

/-- The fold step of `spell_checker._smart_join` (its `out[-1]` test also
accepts closing brackets and quotes). -/
def scStep (out : List Char) (t : List Char) : List Char :=
  if startsAlnumL t then
    if out ≠ [] && (isAlnumC (out.getLastD SPc) ||
        (out.getLastD SPc = ')' || out.getLastD SPc = ']' ||
         out.getLastD SPc = DQUO || out.getLastD SPc = APOS)) then
      out ++ SPc :: t
    else if out = [] then out ++ t else out ++ SPc :: t
  else out ++ t

/-- The fold step of `grammar_corrector._smart_join` (its `out[-1]` test is
only `isalnum()`). -/
def gcStep (out : List Char) (t : List Char) : List Char :=
  if startsAlnumL t then
    if out ≠ [] && isAlnumC (out.getLastD SPc) then out ++ SPc :: t
    else if out = [] then out ++ t else out ++ SPc :: t
  else out ++ t

/-- Char-level body of `spell_checker._smart_join`. -/
def scJoinChars (ts : List (List Char)) : List Char :=
  stripL (squeezeBefore isSentPunctC (ts.foldl scStep []))

/-- Char-level body of `grammar_corrector._smart_join`. -/
def gcJoinChars (ts : List (List Char)) : List Char :=
  stripL (squeezeBefore isSentPunctC (ts.foldl gcStep []))

namespace spell_checker

/-- `spell_checker._retok`. -/
def _retok (s : String) : List String := (findallGo none s.data).map String.mk

/-- `spell_checker._smart_join`. -/
def _smart_join (ts : List String) : String :=
  String.mk (scJoinChars (ts.map String.data))

end spell_checker

namespace grammar_corrector

/-- `grammar_corrector._simple_tokens`. -/
def _simple_tokens (s : String) : List String := (findallGo none s.data).map String.mk

/-- `grammar_corrector._smart_join`. -/
def _smart_join (ts : List String) : String :=
  String.mk (gcJoinChars (ts.map String.data))

/-- The two-pointer walk of `enforce_locked_proper_nouns`: source index `i`
tracks the position in the source token list (for lock-map lookups); at each
step either the lock map's canonical string or the target token is emitted,
and both pointers advance by one.  When the source is exhausted the remaining
target suffix is appended verbatim; when the target is exhausted the loop
ends. -/
def guardLoop (lock : List (Nat × String)) : Nat → List String → List String → List String
  | _, [], tgt => tgt
  | _, _ :: _, [] => []
  | i, s :: src, t :: tgt =>
    if startsLetterS s && (lock.lookup i).isSome && startsLetterS t then
      ((lock.lookup i).getD "") :: guardLoop lock (i + 1) src tgt
    else
      t :: guardLoop lock (i + 1) src tgt

/-- The adjacent-duplicate removal loop of `enforce_locked_proper_nouns`:
a token is skipped when both it and the previously kept token are word-class
and equal modulo case.  `last` is the previously kept token (`dedup[-1]`). -/
def dedupAux (last : String) : List String → List String
  | [] => []
  | t :: ts =>
    if startsLetterS t && startsLetterS last && (lowerS t == lowerS last) then
      dedupAux last ts
    else
      t :: dedupAux t ts

/-- The full duplicate-removal pass (`dedup` starts empty, so the first token
is always kept). -/
def dedupAdj : List String → List String
  | [] => []
  | t :: ts => t :: dedupAux t ts

/-- `grammar_corrector.GrammarCorrector.enforce_locked_proper_nouns`.
The lock map (a Python dict keyed by token index) is modeled as an
association list. -/
def enforce_locked_proper_nouns (original_after_spell corrected : String)
    (locked_positions : List (Nat × String)) : String :=
  if locked_positions = [] then corrected
  else
    let src_tok := _simple_tokens original_after_spell
    let tgt_tok := _simple_tokens corrected
    let out := guardLoop locked_positions 0 src_tok tgt_tok
    let text := _smart_join out
    let tokens := _simple_tokens text
    let dedup := dedupAdj tokens
    _smart_join dedup

end grammar_corrector

/-! ### Claims C7, C10, C1 -/

/-- **C7**: the tokenization rule is deterministic and shared: on every input
string, `spell_checker._retok` and `grammar_corrector._simple_tokens`
produce identical token sequences.  (In the source both are
`re.findall(r"[A-Za-z][A-Za-z\-']*|\d+|[^\w\s]", t)`; the `flags=re.UNICODE`
of `_retok` is the Python 3 default and hence a no-op.) -/
theorem C7_shared_tokenizer :
    ∀ s : String, spell_checker._retok s = grammar_corrector._simple_tokens s :=
  fun _ => rfl

/-- **C10**: with an empty lock map, `enforce_locked_proper_nouns` returns
the rewritten string exactly as given: no tokenization, deduplication or
re-joining is applied. -/
theorem C10_empty_lock_identity :
    ∀ original corrected : String,
      grammar_corrector.enforce_locked_proper_nouns original corrected [] = corrected :=
  fun _ _ => rfl

/-- **C1**: the guard walks source index `i` and target index `j` together
from 0.  When the source token is word-class, its index is a key of the lock
map and the target token is word-class, it emits the lock map's canonical
string and advances both pointers; otherwise it emits the target token
unchanged and advances both pointers; when the source is exhausted the
remaining target suffix is appended verbatim, and when the target is
exhausted the walk ends.  In particular, guarding "I live in jodhpur now"
against locked text "I live in Jodhpur" with lock map {3 : "Jodhpur"} yields
"I live in Jodhpur now". -/
theorem C1_guard_walk :
    (∀ (lock : List (Nat × String)) (i : Nat) (s t : String)
        (src tgt : List String) (canon : String),
        startsLetterS s = true → lock.lookup i = some canon → startsLetterS t = true →
        grammar_corrector.guardLoop lock i (s :: src) (t :: tgt) =
          canon :: grammar_corrector.guardLoop lock (i + 1) src tgt) ∧
    (∀ (lock : List (Nat × String)) (i : Nat) (s t : String)
        (src tgt : List String),
        (startsLetterS s && (lock.lookup i).isSome && startsLetterS t) = false →
        grammar_corrector.guardLoop lock i (s :: src) (t :: tgt) =
          t :: grammar_corrector.guardLoop lock (i + 1) src tgt) ∧
    (∀ (lock : List (Nat × String)) (i : Nat) (tgt : List String),
        grammar_corrector.guardLoop lock i [] tgt = tgt) ∧
    (∀ (lock : List (Nat × String)) (i : Nat) (s : String) (src : List String),
        grammar_corrector.guardLoop lock i (s :: src) [] = []) ∧
    grammar_corrector.enforce_locked_proper_nouns
      "I live in Jodhpur" "I live in jodhpur now" [(3, "Jodhpur")] =
      "I live in Jodhpur now" := by
  refine ⟨?_, ?_, ?_, ?_, ?_⟩
  · intro lock i s t src tgt canon hs hl ht
    simp [grammar_corrector.guardLoop, hs, hl, ht]
  · intro lock i s t src tgt h
    simp only [grammar_corrector.guardLoop, h, Bool.false_eq_true, if_false]
  · intro lock i tgt; rfl
  · intro lock i s src; rfl
  · decide

/-- Witness for **C1**: the overwrite step of the walk at a concrete input. -/
theorem C1_guard_walk_witness :
    grammar_corrector.guardLoop [(0, "Jodhpur")] 0 ["jodpur"] ["jodhpur", "now"] =
      ["Jodhpur", "now"] := by
  have h := C1_guard_walk.1 [(0, "Jodhpur")] 0 "jodpur" "jodhpur" [] ["now"] "Jodhpur"
    (by decide) (by decide) (by decide)
  rw [h]
  rfl

/-! ### Claim C3: the adjacent-duplicate removal pass

In the source the pass runs **once**: after the walk, the joined string is
re-tokenized, one duplicate-removal sweep runs over those tokens, and the
result is joined again.  The sweep itself leaves no two adjacent
case-insensitively identical word tokens (it always compares against the
previously *kept* token).  The claim's further assertions — that the pass
runs twice, and that the tokenization of the *returned string* can never
contain two adjacent case-insensitively identical word tokens — fail: the
final join glues a word token and a following apostrophe token together, so
re-tokenizing the returned string can re-create adjacent identical word
tokens (see `C3_counterexample`). -/

/-- No two immediately adjacent word-class tokens are case-insensitively
identical. -/
def noAdjDupB : List String → Bool
  | t1 :: t2 :: ts =>
    !(startsLetterS t1 && startsLetterS t2 && (lowerS t1 == lowerS t2)) &&
      noAdjDupB (t2 :: ts)
  | _ => true

theorem dedupAux_noAdjDup (ts : List String) :
    ∀ last, noAdjDupB (last :: grammar_corrector.dedupAux last ts) = true := by
  induction ts with
  | nil => intro last; rfl
  | cons t ts ih =>
      intro last
      by_cases h : (startsLetterS t && startsLetterS last && (lowerS t == lowerS last)) = true
      · simp only [grammar_corrector.dedupAux, h, if_true]
        exact ih last
      · simp only [grammar_corrector.dedupAux, h, if_false]
        simp only [noAdjDupB, Bool.and_eq_true, Bool.not_eq_true']
        constructor
        · cases h1 : startsLetterS last <;> cases h2 : startsLetterS t
          · simp
          · simp
          · simp
          · rw [h1, h2] at h
            simp only [Bool.true_and] at h ⊢
            rw [Bool.not_eq_true] at h
            rw [beq_eq_false_iff_ne] at h ⊢
            exact fun hh => h hh.symm
        · exact ih t

/-- **C3 (amended)**: the guard runs the adjacent-duplicate removal pass
once, on the re-tokenization of the first join; that pass's output never
contains two immediately adjacent case-insensitively identical word tokens;
in particular a guarded token stream ["the","the","cat"] collapses to
["the","cat"]. -/
theorem C3_dedup_amended :
    (∀ tokens : List String, noAdjDupB (grammar_corrector.dedupAdj tokens) = true) ∧
    grammar_corrector.dedupAdj ["the", "the", "cat"] = ["the", "cat"] ∧
    grammar_corrector.enforce_locked_proper_nouns "x" "the the cat" [(9, "Z")] =
      "the cat" := by
  refine ⟨?_, by decide, by decide⟩
  intro tokens
  cases tokens with
  | nil => rfl
  | cons t ts => exact dedupAux_noAdjDup ts t

/-- **C3 counterexample**: the claim's consequence — that the tokenization of
the string *returned* by the guard never contains two adjacent
case-insensitively identical word tokens — is false.  With lock map
{0 : "a ' a '"} the guard returns "a' a'", whose tokenization is
["a'", "a'"]: two adjacent identical word tokens (the final join glues each
lone apostrophe onto the preceding word, and no dedup pass runs after that
join). -/
theorem C3_counterexample :
    noAdjDupB (grammar_corrector._simple_tokens
      (grammar_corrector.enforce_locked_proper_nouns "x" "y"
        [(0, "a \x27 a \x27")])) = false := by
  decide

/-! ### difflib

`_closest_proper` uses `difflib.get_close_matches(word, keys, n=1, cutoff)`,
which filters `keys` by `SequenceMatcher(None, x, word).ratio() >= cutoff`
(the `real_quick_ratio`/`quick_ratio` pre-filters are upper bounds of
`ratio`, so with the final `ratio` test the filter is exactly
`ratio >= cutoff`; the embedding keeps all three tests) and returns the
largest surviving `(ratio, x)` pair (largest ratio; ties broken towards the
lexicographically largest key, as Python tuple comparison does).

`ratio()` is `2*M/T` where `T = len(a)+len(b)` and `M` is the total size of
the matching blocks found by the recursive longest-matching-block
decomposition.  The inputs here are words far shorter than 200 characters,
so difflib's junk/autojunk machinery is inactive and `find_longest_match`
returns the longest common substring of the current window, earliest
`(i, j)` first (the dynamic program updates only on a strictly larger
length, scanning `i` then `j` in increasing order; with no junk, its
extension loops are no-ops).  Ratios are modeled as exact rationals. -/

namespace difflib

/-- Are `a[i]` and `b[j]` both present and equal? -/
def charEq (a b : List Char) (i j : Nat) : Bool :=
  match a.get? i, b.get? j with
  | some x, some y => x = y
  | _, _ => false

/-- Length of the longest common substring of `a` and `b` *ending* at
positions `(i, j)` and not extending left of window starts `alo`, `blo`
(this is the `j2len` value of difflib's dynamic program). -/
def lcsuff (a b : List Char) (alo blo : Nat) : Nat → Nat → Nat
  | 0, j => if charEq a b 0 j then 1 else 0
  | i + 1, 0 => if charEq a b (i + 1) 0 then 1 else 0
  | i + 1, j + 1 =>
    if charEq a b (i + 1) (j + 1) then
      if i + 1 ≤ alo || j + 1 ≤ blo then 1
      else lcsuff a b alo blo i j + 1
    else 0

/-- `SequenceMatcher.find_longest_match` on the window
`a[alo:ahi] × b[blo:bhi]` (no junk): the longest common substring, scanning
end positions `i` ascending then `j` ascending and keeping the first
strictly-larger length.  Returns `(besti, bestj, bestsize)`. -/
def flm (a b : List Char) (alo ahi blo bhi : Nat) : Nat × Nat × Nat :=
  (List.range' alo (ahi - alo)).foldl (fun best i =>
    (List.range' blo (bhi - blo)).foldl (fun best j =>
      let k := lcsuff a b alo blo i j
      if best.2.2 < k then (i + 1 - k, j + 1 - k, k) else best) best)
    (alo, blo, 0)

/-- Total size of the matching blocks (`get_matching_blocks` recursion):
take the longest match of the window, recurse left and right of it.  The
window total `(ahi-alo)+(bhi-blo)` strictly decreases at each recursion
step, so `fuel = len(a)+len(b)` always suffices for the top-level call. -/
def matchTotalF (a b : List Char) : Nat → Nat → Nat → Nat → Nat → Nat
  | 0, _, _, _, _ => 0
  | fuel + 1, alo, ahi, blo, bhi =>
    let r := flm a b alo ahi blo bhi
    if r.2.2 = 0 then 0
    else
      r.2.2 + matchTotalF a b fuel alo r.1 blo r.2.1 +
        matchTotalF a b fuel (r.1 + r.2.2) ahi (r.2.1 + r.2.2) bhi

/-- `M`: total size of the matching blocks of `a` and `b`. -/
def matchTotal (a b : List Char) : Nat :=
  matchTotalF a b (a.length + b.length) 0 a.length 0 b.length

/-- `SequenceMatcher.ratio() = 2*M/T` (built with `mkRat`, which is the
kernel-computable constructor of the rational `2*M / T`). -/
def ratioOf (a b : List Char) : ℚ :=
  mkRat (2 * matchTotal a b) (a.length + b.length)

/-- `quick_ratio`: `2/T` times the size of the multiset intersection of the
characters (difflib computes it with a running `avail` counter; the closed
form is the sum over the distinct characters of `a` of the minimum of the
two occurrence counts). -/
def quickRatioOf (a b : List Char) : ℚ :=
  mkRat (2 * (a.dedup.map (fun c => min (a.count c) (b.count c))).sum)
    (a.length + b.length)

/-- `real_quick_ratio`: `2*min(la,lb)/T`. -/
def realQuickRatioOf (a b : List Char) : ℚ :=
  mkRat (2 * min a.length b.length) (a.length + b.length)

/-- The filter of `get_close_matches(word, keys, n, cutoff)`:
`x` survives iff all three ratio tests are at least `cutoff` (`a = x`,
`b = word`, as in difflib's `set_seq1(x)` / `set_seq2(word)`). -/
def gcmFilter (word : String) (keys : List String) (cutoff : ℚ) : List String :=
  keys.filter (fun x =>
    decide (cutoff ≤ realQuickRatioOf x.data word.data) &&
    decide (cutoff ≤ quickRatioOf x.data word.data) &&
    decide (cutoff ≤ ratioOf x.data word.data))

/-- `get_close_matches(word, keys, n=1, cutoff)`: the largest surviving
`(ratio, x)` pair, or `none` (distinct keys never produce equal pairs, so
the maximum is unambiguous). -/
def gcm1 (word : String) (keys : List String) (cutoff : ℚ) : Option String :=
  (gcmFilter word keys cutoff).foldl (fun best x =>
    match best with
    | none => some x
    | some b =>
      if ratioOf b.data word.data < ratioOf x.data word.data ∨
          (ratioOf b.data word.data = ratioOf x.data word.data ∧ b < x) then some x
      else some b) none

end difflib

namespace spell_checker

/-- `INDIAN_STATES` (verbatim from the source). -/
def INDIAN_STATES : List String :=
  ["Andhra Pradesh", "Arunachal Pradesh", "Assam", "Bihar", "Chhattisgarh", "Goa",
   "Gujarat", "Haryana", "Himachal Pradesh", "Jharkhand", "Karnataka", "Kerala",
   "Madhya Pradesh", "Maharashtra", "Manipur", "Meghalaya", "Mizoram", "Nagaland",
   "Odisha", "Punjab", "Rajasthan", "Sikkim", "Tamil Nadu", "Telangana", "Tripura",
   "Uttar Pradesh", "Uttarakhand", "West Bengal", "Delhi", "Jammu and Kashmir",
   "Ladakh", "Puducherry", "Chandigarh", "Andaman and Nicobar Islands", "Lakshadweep"]

/-- `POPULAR_CITIES` (verbatim from the source). -/
def POPULAR_CITIES : List String :=
  ["Mumbai", "Delhi", "Bengaluru", "Bangalore", "Kolkata", "Chennai", "Hyderabad", "Pune",
   "Ahmedabad", "Jaipur", "Kochi", "Indore", "Bhopal", "Lucknow", "Kanpur", "Nagpur",
   "Surat", "Vadodara", "Visakhapatnam", "Patna", "Varanasi", "Udaipur", "Jodhpur",
   "Kota", "Mysuru", "Mysore", "Mangalore", "Noida", "Gurugram", "Gurgaon", "Thane", "Nashik"]

/-- `COMMON_FIRST_NAMES` (verbatim from the source). -/
def COMMON_FIRST_NAMES : List String :=
  ["Rahul", "Rohit", "Amit", "Aman", "Ankit", "Mahipal", "Ayesha", "Priya", "Neha",
   "Vikas", "Vikram", "Karan", "Arjun", "Raj", "Riya", "Rakesh", "Aditi", "Mohit",
   "Sanjay", "Suresh", "Anurag", "Deepak", "Pooja", "Manish", "Shreya", "Siddharth"]

/-- `LEX_STATE = {s.lower(): s for s in INDIAN_STATES}` (keys are unique, so
an association list with first-match lookup models the dict). -/
def LEX_STATE : List (String × String) := INDIAN_STATES.map (fun s => (lowerS s, s))

/-- `LEX_CITY = {c.lower(): c for c in POPULAR_CITIES}`. -/
def LEX_CITY : List (String × String) := POPULAR_CITIES.map (fun c => (lowerS c, c))

/-- `LEX_NAME = {n.lower(): n for n in COMMON_FIRST_NAMES}`. -/
def LEX_NAME : List (String × String) := COMMON_FIRST_NAMES.map (fun n => (lowerS n, n))

/-- `ALL_LEX = {**LEX_STATE, **LEX_CITY, **LEX_NAME}` as an association
list.  In a Python dict merge a later value overrides an earlier one for a
duplicated key, so lookups read the *last* binding. -/
def ALL_LEX : List (String × String) := LEX_STATE ++ LEX_CITY ++ LEX_NAME

/-- `ALL_LEX[k]` / `k in ALL_LEX` (last binding wins, as in a dict merge;
the only duplicated key, "delhi", is bound to "Delhi" in both sources). -/
def ALL_LEX_get (k : String) : Option String := ALL_LEX.reverse.lookup k

/-- `list(ALL_LEX.keys())`: keys in insertion order without duplicates. -/
def ALL_LEX_keys : List String :=
  ALL_LEX.foldl (fun acc p => if acc.contains p.1 then acc else acc ++ [p.1]) []

/-- The category of a lexicon key:
`"state" if m in LEX_STATE else ("city" if m in LEX_CITY else "person")`. -/
def tagOfKey (m : String) : String :=
  if (LEX_STATE.lookup m).isSome then "state"
  else if (LEX_CITY.lookup m).isSome then "city"
  else "person"

/-- `spell_checker._closest_proper(token, cutoff)`: exact case-insensitive
lookup first; otherwise the single best fuzzy match at `cutoff`; a "person"
match must additionally survive
`get_close_matches(low, [m], n=1, cutoff=max(0.96, cutoff))`. -/
def _closest_proper (token : String) (cutoff : ℚ) : Option (String × String) :=
  let low := lowerS token
  match ALL_LEX_get low with
  | some canon => some (canon, tagOfKey low)
  | none =>
    match difflib.gcm1 low ALL_LEX_keys cutoff with
    | some m =>
      if tagOfKey m = "person" &&
          !(difflib.gcm1 low [m] (max (mkRat 96 100) cutoff)).isSome then none
      else some ((ALL_LEX_get m).getD "", tagOfKey m)
    | none => none

end spell_checker

/-! ### Claims C5 and C4: the proper-noun matcher -/

/-- **C5**: a word whose lowercase form is exactly a lexicon key is returned
with its canonical form and category irrespective of the cutoff (the exact
branch precedes and never consults the fuzzy path); in particular matching
"karnataka" at the unreachably strict cutoff 0.99 returns
("Karnataka", "state"). -/
theorem C5_exact_match_bypasses_cutoff :
    (∀ (token : String) (cutoff : ℚ) (canon : String),
        spell_checker.ALL_LEX_get (lowerS token) = some canon →
        spell_checker._closest_proper token cutoff =
          some (canon, spell_checker.tagOfKey (lowerS token))) ∧
    (∀ cutoff : ℚ,
        spell_checker._closest_proper "karnataka" cutoff =
          some ("Karnataka", "state")) := by
  constructor
  · intro token cutoff canon h1
    unfold spell_checker._closest_proper
    simp only [h1]
  · intro cutoff
    unfold spell_checker._closest_proper
    rfl

/-- Witness for **C5** at the cutoff 0.99 of the specification's example. -/
theorem C5_witness :
    spell_checker._closest_proper "karnataka" (mkRat 99 100) =
      some ("Karnataka", "state") :=
  C5_exact_match_bypasses_cutoff.1 "karnataka" (mkRat 99 100) "Karnataka" (by decide)

/-- **C4**: a word that fuzzy-matches a person-name entry as best match at
or above the cutoff, but is not an exact key, must additionally pass a
second pairwise check against the matched key at threshold
`max(0.96, cutoff)`, and the matcher returns none when that stricter check
fails.  Concretely (cutoff 0.94): "siddharthh" has similarity 18/19 ≈ 0.947
to the person name "siddharth" — above the cutoff but below 0.96 — and is
rejected, while "karnatakaa" with the same similarity 18/19 to the state
"karnataka" is accepted. -/
theorem C4_person_stricter_threshold :
    (∀ (token : String) (cutoff : ℚ) (m : String),
        spell_checker.ALL_LEX_get (lowerS token) = none →
        difflib.gcm1 (lowerS token) spell_checker.ALL_LEX_keys cutoff = some m →
        spell_checker.tagOfKey m = "person" →
        (difflib.gcm1 (lowerS token) [m] (max (mkRat 96 100) cutoff)).isSome = false →
        spell_checker._closest_proper token cutoff = none) ∧
    spell_checker._closest_proper "siddharthh" (mkRat 94 100) = none ∧
    spell_checker._closest_proper "karnatakaa" (mkRat 94 100) =
      some ("Karnataka", "state") := by
  refine ⟨?_, by decide, by decide⟩
  intro token cutoff m h1 h2 h3 h4
  unfold spell_checker._closest_proper
  simp only [h1, h2, h3, h4]
  simp

/-- Witness for **C4**: the general person-strictness rule applied at the
concrete input "siddharthh" with cutoff 0.94 and matched key "siddharth". -/
theorem C4_witness :
    spell_checker._closest_proper "siddharthh" (mkRat 94 100) = none :=
  C4_person_stricter_threshold.1 "siddharthh" (mkRat 94 100) "siddharth"
    (by decide) (by decide) (by decide) (by decide)

/-! ### Abbreviation table and the lock-recording normalizer -/

namespace spell_checker

/-- `ABBREV` (verbatim from the source; keys are pairwise distinct, so an
association list with first-match lookup models the dict). -/
def ABBREV : List (String × String) :=
  [("im", "i am"),
   ("i\x27m", "i am"),
   ("m", "am"),
   ("u", "you"),
   ("ur", "your"),
   ("urs", "yours"),
   ("r", "are"),
   ("y", "why"),
   ("yup", "yes"),
   ("n", "and"),
   ("nd", "and"),
   ("d", "the"),
   ("bt", "but"),
   ("bcoz", "because"),
   ("cuz", "because"),
   ("coz", "because"),
   ("cz", "because"),
   ("frm", "from"),
   ("alot", "a lot"),
   ("hii", "hi"),
   ("hiii", "hi"),
   ("hlw", "hello"),
   ("helo", "hello"),
   ("heyya", "hey"),
   ("heyy", "hey"),
   ("gm", "good morning"),
   ("gn", "good night"),
   ("gudnyt", "good night"),
   ("gudmrng", "good morning"),
   ("pls", "please"),
   ("plz", "please"),
   ("plzz", "please"),
   ("plsss", "please"),
   ("sry", "sorry"),
   ("srz", "sorry"),
   ("thx", "thanks"),
   ("tnx", "thanks"),
   ("tq", "thank you"),
   ("ty", "thank you"),
   ("tysm", "thank you so much"),
   ("thnx", "thanks"),
   ("thnks", "thanks"),
   ("thanq", "thank you"),
   ("nyc", "nice"),
   ("nycly", "nicely"),
   ("gud", "good"),
   ("gr8", "great"),
   ("grt", "great"),
   ("asap", "as soon as possible"),
   ("bday", "birthday"),
   ("hbd", "happy birthday"),
   ("gn8", "good night"),
   ("gmorning", "good morning"),
   ("gdaftrn", "good afternoon"),
   ("tc", "take care"),
   ("gnite", "good night"),
   ("nite", "night"),
   ("lol", "laughing out loud"),
   ("rofl", "rolling on the floor laughing"),
   ("lmao", "laughing my ass off"),
   ("omg", "oh my god"),
   ("wtf", "what the fuck"),
   ("wth", "what the hell"),
   ("idk", "i do not know"),
   ("idc", "i do not care"),
   ("imo", "in my opinion"),
   ("imho", "in my humble opinion"),
   ("brb", "be right back"),
   ("bbl", "be back later"),
   ("ttyl", "talk to you later"),
   ("tbh", "to be honest"),
   ("ikr", "i know right"),
   ("ofc", "of course"),
   ("smh", "shaking my head"),
   ("np", "no problem"),
   ("nvm", "never mind"),
   ("btw", "by the way"),
   ("bc", "because"),
   ("afaik", "as far as i know"),
   ("omw", "on my way"),
   ("gg", "good game"),
   ("dw", "do not worry"),
   ("hmu", "hit me up"),
   ("wyd", "what are you doing"),
   ("wru", "where are you"),
   ("sup", "what is up"),
   ("wbu", "what about you"),
   ("hbu", "how about you"),
   ("lmk", "let me know"),
   ("idts", "i do not think so"),
   ("ily", "i love you"),
   ("ilu", "i love you"),
   ("ilysm", "i love you so much"),
   ("b4", "before"),
   ("l8r", "later"),
   ("2day", "today"),
   ("2mrw", "tomorrow"),
   ("2moro", "tomorrow"),
   ("4u", "for you"),
   ("4me", "for me"),
   ("bff", "best friends forever"),
   ("bf", "boyfriend"),
   ("gf", "girlfriend"),
   ("bffs", "best friends forever"),
   ("xoxo", "hugs and kisses"),
   ("ya", "yeah"),
   ("yaar", "friend"),
   ("dude", "friend"),
   ("bro", "brother"),
   ("sis", "sister"),
   ("bruh", "brother"),
   ("jk", "just kidding"),
   ("k", "okay"),
   ("kk", "okay"),
   ("okie", "okay"),
   ("okies", "okay"),
   ("okk", "okay"),
   ("yolo", "you only live once"),
   ("fyi", "for your information"),
   ("faq", "frequently asked questions"),
   ("atm", "at the moment"),
   ("cya", "see you"),
   ("g2g", "got to go"),
   ("gtg", "got to go"),
   ("msg", "message"),
   ("txt", "text"),
   ("vid", "video"),
   ("pic", "picture"),
   ("dp", "display picture"),
   ("bio", "biography"),
   ("status", "status message"),
   ("prolly", "probably"),
   ("smth", "something"),
   ("tho", "though"),
   ("thru", "through"),
   ("ppl", "people"),
   ("tmrw", "tomorrow"),
   ("tmr", "tomorrow"),
   ("becoz", "because"),
   ("luv", "love"),
   ("muah", "kiss"),
   ("xmas", "christmas"),
   ("ny", "new year"),
   ("acha", "okay"),
   ("accha", "okay"),
   ("haan", "yes"),
   ("h", "yes"),
   ("nope", "no"),
   ("pakka", "sure"),
   ("mast", "great"),
   ("faltu", "useless"),
   ("thik", "fine"),
   ("thik h", "fine"),
   ("sahi", "right"),
   ("chill", "relax"),
   ("chod", "leave"),
   ("clg", "college"),
   ("collg", "college"),
   ("colly", "college"),
   ("uni", "university"),
   ("dept", "department"),
   ("addr", "address"),
   ("batt", "battery"),
   ("jodhpurr", "jodhpur"),
   ("jodpur", "jodhpur"),
   ("mysru", "mysore"),
   ("myrs", "mysore"),
   ("mysuru", "mysuru"),
   ("kranataka", "karnataka"),
   ("kranatka", "karnataka"),
   ("krnatka", "karnataka"),
   ("krnataka", "karnataka"),
   ("karnatka", "karnataka"),
   ("karanataka", "karnataka"),
   ("karnatak", "karnataka"),
   ("rajsthan", "rajasthan"),
   ("rajashtan", "rajasthan"),
   ("talkathon", "hackathon")]

/-- `SpellCorrector.normalize_tokens`: lowercase, tokenize, expand word
tokens through `ABBREV` (`ABBREV.get(t, t)`), re-join. -/
def normalize_tokens (text : String) : String :=
  let toks := _retok (lowerS text)
  let out := toks.map (fun t => if startsLetterS t then (ABBREV.lookup t).getD t else t)
  _smart_join out

/-- Python `str.isalpha` (ASCII fragment): non-empty and all letters. -/
def isalphaS (t : String) : Bool := !t.data.isEmpty && t.data.all isLetterC

/-- Python `t[:1].isupper()`. -/
def startsUpperS (t : String) : Bool :=
  match t.data with
  | c :: _ => isUpperC c
  | [] => false

/-- Python `str.capitalize` (ASCII fragment): first char upper, rest lower. -/
def capitalizeS (t : String) : String :=
  match t.data with
  | [] => ""
  | c :: cs => String.mk (toUpperC c :: cs.map toLowerC)

/-- The dictionary fallback of `correct_spelling_with_stats` for a word
token `t` (the Dictionary Corrector is the opaque pair `known`/`suggest`):
```
low = t.lower()
if low not in self.spell and t.isalpha():
    cand = self.spell.correction(low)
    fixed.append(cand.capitalize() if (cand and t[:1].isupper()) else (cand or t))
else:
    fixed.append(t)
```
(`cand` is falsy when it is `None` or the empty string). -/
def dict_fallback (known : String → Bool) (suggest : String → Option String)
    (t : String) : String :=
  let low := lowerS t
  if !known low && isalphaS t then
    match suggest low with
    | some cand =>
      if (cand ≠ "" : Bool) && startsUpperS t then capitalizeS cand
      else if cand ≠ "" then cand
      else t
    | none => t
  else t

/-- The statistics record of `correct_spelling_with_stats`. -/
structure Stats where
  lexicon_hits : Nat
  alpha_tokens : Nat
  locked_positions : List (Nat × String)

/-- The token loop of `correct_spelling_with_stats`: `idx` enumerates all
tokens; non-word tokens pass through; word tokens are counted, tried
against the lexicon (locking the canonical at `idx` on a hit) and otherwise
sent to the dictionary fallback. -/
def cssLoop (known : String → Bool) (suggest : String → Option String)
    (use_lexicon : Bool) (lexicon_cutoff : ℚ) : Nat → List String → List String × Stats
  | _, [] => ([], ⟨0, 0, []⟩)
  | idx, t :: ts =>
    let r := cssLoop known suggest use_lexicon lexicon_cutoff (idx + 1) ts
    if !startsLetterS t then (t :: r.1, r.2)
    else if use_lexicon then
      match _closest_proper t lexicon_cutoff with
      | some m =>
        (m.1 :: r.1,
         ⟨r.2.lexicon_hits + 1, r.2.alpha_tokens + 1, (idx, m.1) :: r.2.locked_positions⟩)
      | none =>
        (dict_fallback known suggest t :: r.1,
         ⟨r.2.lexicon_hits, r.2.alpha_tokens + 1, r.2.locked_positions⟩)
    else
      (dict_fallback known suggest t :: r.1,
       ⟨r.2.lexicon_hits, r.2.alpha_tokens + 1, r.2.locked_positions⟩)

end spell_checker

/-! ### `_light_post_edits`

Four `re.sub` passes:
1. `\b(I|i)\s+am\s+([A-Z][a-z]+(?:\s[A-Z][a-z]+)*)\b` → `\1 am from \2`;
2. `\s+,` → `,`;
3. `,([A-Za-z])` → `, \1`;
4. `\bhome lot\b` → `home a lot` (IGNORECASE).

The scanners below follow `re.sub`'s left-to-right, non-overlapping scan;
a failed match advances one character.  Scanners that jump over a matched
region carry a fuel argument: every step consumes at least one input
character, so fuel equal to the input length always suffices. -/

/-- Case-insensitive literal match of the (lowercase) pattern `ps`; returns
the rest of the input after the match. -/
def matchCaseless : List Char → List Char → Option (List Char)
  | [], rest => some rest
  | _ :: _, [] => none
  | p :: ps, c :: cs => if toLowerC c = p then matchCaseless ps cs else none

/-- A `\b` holds after a word character iff the next position is the end of
the string or a non-word character. -/
def boundaryAfterW (l : List Char) : Bool :=
  match l with
  | [] => true
  | c :: _ => !isWordCharC c

/-- `[A-Z][a-z]+` (greedy), returning the word and the rest. -/
def capWord : List Char → Option (List Char × List Char)
  | c :: cs =>
    if isUpperC c then
      let lows := cs.takeWhile isLowerAZ
      if lows.isEmpty then none
      else some (c :: lows, cs.dropWhile isLowerAZ)
    else none
  | [] => none

/-- `(?:\s[A-Z][a-z]+)*` (greedy): the maximal list of units and the rest.
Each unit consumes at least three characters, so fuel = input length
suffices. -/
def capUnitsF : Nat → List Char → List (List Char) × List Char
  | 0, l => ([], l)
  | fuel + 1, l =>
    match l with
    | [] => ([], [])
    | c :: rest =>
      if isSpaceC c then
        match capWord rest with
        | some (w, r2) =>
          let p := capUnitsF fuel r2
          ((c :: w) :: p.1, p.2)
        | none => ([], l)
      else ([], l)

/-- `([A-Z][a-z]+(?:\s[A-Z][a-z]+)*)\b` with the backtracking the trailing
`\b` can force.  Shrinking a greedy `[a-z]+` run never helps (the next
character would then be a lowercase letter, still a word character), so the
regex either accepts the maximal unit chain, or drops the last unit — after
which the boundary sits before that unit's whitespace and always holds —
or, with no units to drop, fails. -/
def capGroup (l : List Char) : Option (List Char × List Char) :=
  match capWord l with
  | none => none
  | some (w1, r1) =>
    let p := capUnitsF r1.length r1
    if boundaryAfterW p.2 then some (w1 ++ p.1.flatten, p.2)
    else
      match p.1.getLast? with
      | some lastU => some (w1 ++ p.1.dropLast.flatten, lastU ++ p.2)
      | none => none

/-- One attempt of pass 1 at the current position:
`(I|i)\s+am\s+(group)`; returns the matched pronoun, the matched group text
and the rest. -/
def pe1Try (l : List Char) : Option (Char × List Char × List Char) :=
  match l with
  | [] => none
  | c :: r0 =>
    if c = 'I' || c = 'i' then
      let sp1 := r0.takeWhile isSpaceC
      let r1 := r0.dropWhile isSpaceC
      if sp1.isEmpty then none
      else
        match r1 with
        | 'a' :: 'm' :: r2 =>
          let sp2 := r2.takeWhile isSpaceC
          let r3 := r2.dropWhile isSpaceC
          if sp2.isEmpty then none
          else
            match capGroup r3 with
            | some (g, rest) => some (c, g, rest)
            | none => none
        | _ => none
    else none

/-- The scan of pass 1.  `prev` is the character before the current
position (for the leading `\b`; the pattern starts with a word character,
so the boundary holds iff `prev` is absent or a non-word character).  After
a replacement the scan resumes after the matched text, whose last character
is the group's final lowercase letter. -/
def pe1ScanF : Nat → Option Char → List Char → List Char
  | 0, _, l => l
  | fuel + 1, prev, l =>
    match l with
    | [] => []
    | c :: cs =>
      let bOk := match prev with | none => true | some p => !isWordCharC p
      if bOk then
        match pe1Try (c :: cs) with
        | some (pr, g, rest) =>
          pr :: (" am from ".data ++ g ++ pe1ScanF fuel (some (g.getLastD SPc)) rest)
        | none => c :: pe1ScanF fuel (some c) cs
      else c :: pe1ScanF fuel (some c) cs

/-- Pass 3: `,([A-Za-z])` → `, \1`; the scan resumes after the matched
letter. -/
def pe3 : List Char → List Char
  | [] => []
  | [c] => [c]
  | c :: d :: r2 =>
    if c = ',' then
      if isLetterC d then c :: SPc :: d :: pe3 r2 else c :: pe3 (d :: r2)
    else c :: pe3 (d :: r2)

/-- Pass 4: `\bhome lot\b` → `home a lot`, case-insensitively. -/
def pe4ScanF : Nat → Option Char → List Char → List Char
  | 0, _, l => l
  | fuel + 1, prev, l =>
    match l with
    | [] => []
    | c :: cs =>
      let bOk := match prev with | none => true | some p => !isWordCharC p
      if bOk then
        match matchCaseless "home lot".data (c :: cs) with
        | some rest =>
          if boundaryAfterW rest then
            "home a lot".data ++ pe4ScanF fuel (some 't') rest
          else c :: pe4ScanF fuel (some c) cs
        | none => c :: pe4ScanF fuel (some c) cs
      else c :: pe4ScanF fuel (some c) cs

namespace spell_checker

/-- `spell_checker._light_post_edits`. -/
def _light_post_edits (s : String) : String :=
  let t1 := pe1ScanF s.data.length none s.data
  let t2 := squeezeBefore (fun c => c = ',') t1
  let t3 := pe3 t2
  let t4 := pe4ScanF t3.length none t3
  String.mk t4

/-- `SpellCorrector.correct_spelling_with_stats(text, use_lexicon,
lexicon_cutoff)`, parameterized by the Dictionary Corrector. -/
def correct_spelling_with_stats (known : String → Bool)
    (suggest : String → Option String) (text : String)
    (use_lexicon : Bool) (lexicon_cutoff : ℚ) : String × Stats :=
  let norm := normalize_tokens text
  let toks := _retok norm
  let r := cssLoop known suggest use_lexicon lexicon_cutoff 0 toks
  let out := _light_post_edits (_smart_join r.1)
  (out, r.2)

end spell_checker

/-! ### Concrete Dictionary Corrector instances for the counterexamples -/

/-- A dictionary that knows exactly the words "i" and "am" (both are in the
English dictionary of the real pyspellchecker). -/
def knownIAm : String → Bool := fun w => w == "i" || w == "am"

/-- A dictionary corrector with no suggestions. -/
def suggestNone : String → Option String := fun _ => none

/-- A dictionary that knows no word at all. -/
def knownNone : String → Bool := fun _ => false

/-- A dictionary corrector suggesting "hello" for every word. -/
def suggestHello : String → Option String := fun _ => some "hello"

/-! ### Claim C2: where do the lock-map keys point?

The loop records `locked_map[idx] = canonical` for indices of the
tokenization of the *normalized input* (`toks = _retok(norm)`).  The claim
asserts the keys are positions in the tokenization of the *returned*
string; that fails, because `_light_post_edits` can insert tokens (e.g.
"i am Karnataka" → "i am from Karnataka") after the indices were recorded
(and a multi-word canonical such as "Tamil Nadu" likewise re-tokenizes into
two tokens).  The invariant that does hold is stated in `C2_amended`. -/

theorem cssLoop_locked_spec (known : String → Bool) (suggest : String → Option String)
    (use_lexicon : Bool) (cutoff : ℚ) :
    ∀ (ts : List String) (idx : Nat) (kv : Nat × String),
      kv ∈ (spell_checker.cssLoop known suggest use_lexicon cutoff idx ts).2.locked_positions →
      ∃ d, d < ts.length ∧ kv.1 = idx + d ∧
        startsLetterS (ts.getD d "") = true ∧
        ∃ tag, spell_checker._closest_proper (ts.getD d "") cutoff = some (kv.2, tag) := by
  intro ts
  induction ts with
  | nil =>
      intro idx kv h
      simp [spell_checker.cssLoop] at h
  | cons t ts ih =>
      intro idx kv h
      have step : ∀ hkv : kv ∈ (spell_checker.cssLoop known suggest use_lexicon cutoff
          (idx + 1) ts).2.locked_positions,
          ∃ d, d < (t :: ts).length ∧ kv.1 = idx + d ∧
            startsLetterS ((t :: ts).getD d "") = true ∧
            ∃ tag, spell_checker._closest_proper ((t :: ts).getD d "") cutoff =
              some (kv.2, tag) := by
        intro hkv
        obtain ⟨d, hd, hk, hs, tag, hc⟩ := ih (idx + 1) kv hkv
        refine ⟨d + 1, by simpa using Nat.succ_lt_succ hd, by omega, ?_, tag, ?_⟩
        · simpa using hs
        · simpa using hc
      by_cases hw : startsLetterS t = true
      · cases use_lexicon with
        | true =>
            rcases hm : spell_checker._closest_proper t cutoff with _ | m
            · simp only [spell_checker.cssLoop, hw, hm, Bool.not_true,
                Bool.false_eq_true, if_false, if_true] at h
              exact step h
            · simp only [spell_checker.cssLoop, hw, hm, Bool.not_true,
                Bool.false_eq_true, if_false, if_true, List.mem_cons] at h
              rcases h with h | h
              · subst h
                exact ⟨0, by simp, by simp, by simpa using hw, m.2, by simp [hm]⟩
              · exact step h
        | false =>
            simp only [spell_checker.cssLoop, hw, Bool.not_true,
              Bool.false_eq_true, if_false] at h
            exact step h
      · simp only [spell_checker.cssLoop, hw, Bool.not_eq_true'] at h
        rw [Bool.not_eq_true] at hw
        simp only [hw, Bool.not_false, if_true] at h
        exact step h

/-- **C2 (amended)**: every key of the returned `locked_positions` is the
index of a word-class token in the tokenization of the *normalized* string
`normalize_tokens(text)` (the token stream the loop enumerated), and the
recorded value is the canonical string the proper-noun matcher returned for
the token at that index.  (The claim's reference to the tokenization of the
returned corrected string fails; see `C2_counterexample`.) -/
theorem C2_amended :
    ∀ (known : String → Bool) (suggest : String → Option String) (text : String)
      (use_lexicon : Bool) (cutoff : ℚ) (kv : Nat × String),
      kv ∈ (spell_checker.correct_spelling_with_stats known suggest text
          use_lexicon cutoff).2.locked_positions →
      kv.1 < (spell_checker._retok (spell_checker.normalize_tokens text)).length ∧
      startsLetterS ((spell_checker._retok
        (spell_checker.normalize_tokens text)).getD kv.1 "") = true ∧
      ∃ tag, spell_checker._closest_proper ((spell_checker._retok
          (spell_checker.normalize_tokens text)).getD kv.1 "") cutoff =
        some (kv.2, tag) := by
  intro known suggest text use_lexicon cutoff kv h
  have h' : kv ∈ (spell_checker.cssLoop known suggest use_lexicon cutoff 0
      (spell_checker._retok (spell_checker.normalize_tokens text))).2.locked_positions := h
  obtain ⟨d, hd, hk, hs, tag, hc⟩ :=
    cssLoop_locked_spec known suggest use_lexicon cutoff _ 0 kv h'
  have hk0 : kv.1 = d := by omega
  subst hk0
  exact ⟨hd, hs, tag, hc⟩

/-- Witness for **C2 (amended)** on the input "i am karnatka" with a
dictionary knowing "i" and "am": the lock entry (2, "Karnataka") points at
the word token "karnataka" of the normalized stream. -/
theorem C2_witness :
    (2 : Nat) < (spell_checker._retok (spell_checker.normalize_tokens "i am karnatka")).length ∧
    startsLetterS ((spell_checker._retok
      (spell_checker.normalize_tokens "i am karnatka")).getD 2 "") = true ∧
    ∃ tag, spell_checker._closest_proper ((spell_checker._retok
        (spell_checker.normalize_tokens "i am karnatka")).getD 2 "") (mkRat 94 100) =
      some ("Karnataka", tag) :=
  C2_amended knownIAm suggestNone "i am karnatka" true (mkRat 94 100)
    (2, "Karnataka") (by decide)

/-- **C2 counterexample**: on input "i am karnatka" (dictionary knowing "i"
and "am") the normalizer locks (2, "Karnataka"), but `_light_post_edits`
rewrites "i am Karnataka" to "i am from Karnataka", so in the tokenization
of the *returned* string the token at index 2 is "from", not "Karnataka":
the claim's invariant about the returned string is false. -/
theorem C2_counterexample :
    ¬ (∀ kv ∈ (spell_checker.correct_spelling_with_stats knownIAm suggestNone
          "i am karnatka" true (mkRat 94 100)).2.locked_positions,
        startsLetterS ((spell_checker._retok
          (spell_checker.correct_spelling_with_stats knownIAm suggestNone
            "i am karnatka" true (mkRat 94 100)).1).getD kv.1 "") = true ∧
        (spell_checker._retok (spell_checker.correct_spelling_with_stats knownIAm
          suggestNone "i am karnatka" true (mkRat 94 100)).1).getD kv.1 "" = kv.2) := by
  intro h
  have h2 := (h (2, "Karnataka") (by decide)).2
  revert h2
  decide

/-! ### Claim C8: the dictionary fallback

The source guards the fallback with `low not in self.spell and t.isalpha()`:
a word token containing a hyphen or apostrophe is *never* replaced, even
when it is unknown and the dictionary has a suggestion.  The claim omits the
`isalpha` condition and is therefore false (see `C8_counterexample`). -/

/-- **C8 (amended)**: for a word token not matched by the lexicon, the
normalizer loop emits: the dictionary's suggestion — capitalized when the
original token started uppercase — when the token's lowercase form is
unknown, the token is purely alphabetic and a non-empty suggestion exists;
the token unchanged when the dictionary yields no suggestion; and the token
unchanged when the word is known to the dictionary **or the token is not
purely alphabetic** (the condition the claim omits). -/
theorem C8_dict_fallback_amended :
    (∀ (known : String → Bool) (suggest : String → Option String) (cutoff : ℚ)
        (idx : Nat) (t : String) (ts : List String) (cand : String),
        startsLetterS t = true →
        spell_checker._closest_proper t cutoff = none →
        known (lowerS t) = false → spell_checker.isalphaS t = true →
        suggest (lowerS t) = some cand → cand ≠ "" →
        (spell_checker.cssLoop known suggest true cutoff idx (t :: ts)).1 =
          (if spell_checker.startsUpperS t then spell_checker.capitalizeS cand else cand) ::
            (spell_checker.cssLoop known suggest true cutoff (idx + 1) ts).1) ∧
    (∀ (known : String → Bool) (suggest : String → Option String) (cutoff : ℚ)
        (idx : Nat) (t : String) (ts : List String),
        startsLetterS t = true →
        spell_checker._closest_proper t cutoff = none →
        known (lowerS t) = false → spell_checker.isalphaS t = true →
        suggest (lowerS t) = none →
        (spell_checker.cssLoop known suggest true cutoff idx (t :: ts)).1 =
          t :: (spell_checker.cssLoop known suggest true cutoff (idx + 1) ts).1) ∧
    (∀ (known : String → Bool) (suggest : String → Option String) (cutoff : ℚ)
        (idx : Nat) (t : String) (ts : List String),
        startsLetterS t = true →
        spell_checker._closest_proper t cutoff = none →
        (known (lowerS t) = true ∨ spell_checker.isalphaS t = false) →
        (spell_checker.cssLoop known suggest true cutoff idx (t :: ts)).1 =
          t :: (spell_checker.cssLoop known suggest true cutoff (idx + 1) ts).1) := by
  refine ⟨?_, ?_, ?_⟩
  · intro known suggest cutoff idx t ts cand hw hm hk ha hs hc
    simp only [spell_checker.cssLoop, hw, hm, Bool.not_true, Bool.false_eq_true,
      if_false, if_true]
    simp only [spell_checker.dict_fallback, hk, ha, hs, Bool.not_false, Bool.true_and,
      if_true]
    by_cases hu : spell_checker.startsUpperS t = true
    · simp [hu, hc]
    · simp only [Bool.not_eq_true] at hu
      simp [hu, hc]
  · intro known suggest cutoff idx t ts hw hm hk ha hs
    simp only [spell_checker.cssLoop, hw, hm, Bool.not_true, Bool.false_eq_true,
      if_false, if_true]
    simp [spell_checker.dict_fallback, hk, ha, hs]
  · intro known suggest cutoff idx t ts hw hm hka
    simp only [spell_checker.cssLoop, hw, hm, Bool.not_true, Bool.false_eq_true,
      if_false, if_true]
    rcases hka with hk | ha
    · simp [spell_checker.dict_fallback, hk]
    · simp [spell_checker.dict_fallback, ha]

/-- Witness for **C8 (amended)**: an unknown purely-alphabetic word with a
suggestion is replaced by it. -/
theorem C8_witness :
    (spell_checker.cssLoop knownNone suggestHello true (mkRat 94 100) 0 ["zzzqx"]).1 =
      ["hello"] := by
  have h := C8_dict_fallback_amended.1 knownNone suggestHello (mkRat 94 100) 0 "zzzqx" []
    "hello" (by decide) (by decide) rfl (by decide) rfl (by decide)
  rw [h]
  decide

/-- **C8 counterexample**: the word token "zzz-zzz" is not matched by the
lexicon, its lowercase form is unknown, and the dictionary suggests
"hello" — yet the code returns it unchanged, because `t.isalpha()` is false
for a hyphenated token; the claim says it must be replaced by the
suggestion. -/
theorem C8_counterexample :
    spell_checker._closest_proper "zzz-zzz" (mkRat 94 100) = none ∧
    knownNone (lowerS "zzz-zzz") = false ∧
    suggestHello (lowerS "zzz-zzz") = some "hello" ∧
    (spell_checker.correct_spelling_with_stats knownNone suggestHello "zzz-zzz" true
        (mkRat 94 100)).1 = "zzz-zzz" ∧
    ("zzz-zzz" : String) ≠ "hello" :=
  ⟨by decide, rfl, rfl, by decide, by decide⟩

/-! ### `utils/academic_rules.py` -/

/-- Does `needle` occur at the start of the list? -/
def startsWithL : List Char → List Char → Bool
  | [], _ => true
  | _ :: _, [] => false
  | p :: ps, c :: cs => p = c && startsWithL ps cs

/-- Python substring containment `needle in hay`. -/
def isSubstrL (needle : List Char) : List Char → Bool
  | [] => needle.isEmpty
  | c :: cs => startsWithL needle (c :: cs) || isSubstrL needle cs

/-- One attempt of `pre stay(?:ing)? tail\b` — that is, the case-insensitive
literal `pre ++ "stay"`, an optional greedy `"ing"`, the literal `tail`
(" in" or " at") and a trailing `\b` — at the current position.  If the
greedy branch with "ing" fails (including the boundary), the regex
backtracks to the branch without it. -/
def tryStayPat (pre tail : List Char) (l : List Char) : Option (List Char) :=
  match matchCaseless (pre ++ "stay".data) l with
  | none => none
  | some r1 =>
    match
      (match matchCaseless "ing".data r1 with
       | some r2 =>
         match matchCaseless tail r2 with
         | some r3 => if boundaryAfterW r3 then some r3 else none
         | none => none
       | none => none) with
    | some r => some r
    | none =>
      match matchCaseless tail r1 with
      | some r3 => if boundaryAfterW r3 then some r3 else none
      | none => none

/-- `re.sub` scan for the `stay/staying` rewrites (IGNORECASE): the pattern
starts with a word character, so the leading `\b` holds iff `prev` is
absent or a non-word character; the scan resumes after a match (whose last
character is the last character of `tail`).  Every step consumes at least
one character, so fuel = input length suffices. -/
def stayScanF (pre tail rep : List Char) : Nat → Option Char → List Char → List Char
  | 0, _, l => l
  | fuel + 1, prev, l =>
    match l with
    | [] => []
    | c :: cs =>
      let bOk := match prev with | none => true | some p => !isWordCharC p
      if bOk then
        match tryStayPat pre tail (c :: cs) with
        | some rest => rep ++ stayScanF pre tail rep fuel (some (tail.getLastD SPc)) rest
        | none => c :: stayScanF pre tail rep fuel (some c) cs
      else c :: stayScanF pre tail rep fuel (some c) cs

namespace academic_rules

/-- `ACADEMIC_KEYWORDS` (verbatim from the source). -/
def ACADEMIC_KEYWORDS : List String :=
  ["college", "university", "school", "institute", "campus", "degree",
   "btech", "b.tech", "mtech", "m.tech", "bsc", "msc", "phd", "semester"]

/-- `HOSTEL_CLUES` (verbatim from the source). -/
def HOSTEL_CLUES : List String :=
  ["hostel", "dorm", "dormitory", "pg", "paying guest", "stay at",
   "staying at", "room", "flat", "apartment", "rent"]

/-- `any(k in low for k in ACADEMIC_KEYWORDS)`. -/
def has_academic (text : String) : Bool :=
  ACADEMIC_KEYWORDS.any (fun k => isSubstrL k.data (lowerS text).data)

/-- `any(h in low for h in HOSTEL_CLUES)`. -/
def has_hostel (text : String) : Bool :=
  HOSTEL_CLUES.any (fun h => isSubstrL h.data (lowerS text).data)

/-- `academic_rules.prefer_studying`: when an academic keyword is present
and no hostel clue is, apply the four `re.sub` passes
`\bi am stay(?:ing)? in\b` → "i am studying in",
`\bstay(?:ing)? in\b` → "studying in", and the two "at" variants, each
IGNORECASE with a fixed (lower-case) replacement string; otherwise return
the text unchanged. -/
def prefer_studying (text : String) : String :=
  if has_academic text && !has_hostel text then
    let t1 := stayScanF "i am ".data " in".data "i am studying in".data
      text.data.length none text.data
    let t2 := stayScanF [] " in".data "studying in".data t1.length none t1
    let t3 := stayScanF "i am ".data " at".data "i am studying at".data
      t2.length none t2
    let t4 := stayScanF [] " at".data "studying at".data t3.length none t3
    String.mk t4
  else text

end academic_rules

/-! ### Claim C9 -/

/-- **C9 (amended)**: `prefer_studying` applies its rewrites exactly when
the text contains an academic keyword and no hostel-context clue (otherwise
the text is returned unchanged).  On "I am staying in college" the first
pattern `\bi am stay(?:ing)? in\b` matches and is replaced by the fixed
lowercase string "i am studying in", so the result is
"i am studying in college" — the matched "I am" prefix is lowercased, i.e.
the rest of the text is *not* left fully unchanged as the claim says.  The
hostel example is returned unchanged. -/
theorem C9_prefer_studying_amended :
    (∀ text : String,
        (academic_rules.has_academic text && !academic_rules.has_hostel text) = false →
        academic_rules.prefer_studying text = text) ∧
    academic_rules.prefer_studying "I am staying in college" =
      "i am studying in college" ∧
    academic_rules.prefer_studying "I am staying in my hostel near college" =
      "I am staying in my hostel near college" := by
  refine ⟨?_, by decide, by decide⟩
  intro text h
  unfold academic_rules.prefer_studying
  rw [h]
  simp

/-- Witness for **C9 (amended)**: no academic keyword, text unchanged. -/
theorem C9_witness :
    academic_rules.prefer_studying "hello there" = "hello there" :=
  C9_prefer_studying_amended.1 "hello there" (by decide)

/-- **C9 counterexample**: the claim predicts "I am staying in college" is
rewritten with only "staying in" → "studying in" changed (hence
"I am studying in college"), but the replacement string of the first regex
is entirely lowercase: the code returns "i am studying in college". -/
theorem C9_counterexample :
    academic_rules.prefer_studying "I am staying in college" =
      "i am studying in college" ∧
    ("i am studying in college" : String) ≠ "I am studying in college" :=
  ⟨by decide, by decide⟩

/-! ### Claim C6: idempotence of joining

`C6_join_idempotent` below proves, for every string `s`, that
`join(tokenize(join(tokenize(s))))` equals `join(tokenize(s))` for the
spell checker's `_retok`/`_smart_join` pair.  The proof goes through a
"raw" join `joinRawL` (the fold without the final `re.sub`/`strip`
cleanup): on well-formed tokens the cleanup is the identity, and
re-tokenizing a joined token list merges each word token with an
immediately following apostrophe/hyphen punctuation token (`mergeT`),
which does not change the joined string. -/

/-- The separator-inserting tail of the raw join: word/number tokens get a
single leading space, anything else is appended bare. -/
def joinContL : List (List Char) → List Char
  | [] => []
  | t :: ts => (if startsAlnumL t then SPc :: t else t) ++ joinContL ts

/-- The raw join: the first token is appended without a separator. -/
def joinRawL : List (List Char) → List Char
  | [] => []
  | t :: ts => t ++ joinContL ts

theorem scStep_ne_nil (out t : List Char) (h : out ≠ []) :
    scStep out t = out ++ (if startsAlnumL t then SPc :: t else t) := by
  unfold scStep
  by_cases ha : startsAlnumL t = true
  · simp only [ha, if_true, if_neg h]
    split <;> rfl
  · simp [ha]

theorem scStep_nil (t : List Char) : scStep [] t = t := by
  unfold scStep
  by_cases ha : startsAlnumL t = true <;> simp [ha]

theorem foldl_scStep_acc (ts : List (List Char)) :
    ∀ out : List Char, out ≠ [] → ts.foldl scStep out = out ++ joinContL ts := by
  induction ts with
  | nil => intro out _; simp [joinContL]
  | cons t ts ih =>
      intro out hout
      rw [List.foldl_cons, scStep_ne_nil out t hout, joinContL]
      rw [ih (out ++ (if startsAlnumL t then SPc :: t else t))
        (by simp [hout])]
      simp

/-- On non-empty tokens the source's fold computes the raw join. -/
theorem foldl_scStep_eq_joinRaw (ts : List (List Char))
    (h : ∀ t ∈ ts, t ≠ []) : ts.foldl scStep [] = joinRawL ts := by
  cases ts with
  | nil => rfl
  | cons t ts =>
      rw [List.foldl_cons, scStep_nil, joinRawL]
      cases ht : t with
      | nil => exact absurd ht (h t (by simp))
      | cons c cs =>
          rw [← ht]
          exact foldl_scStep_acc ts t (by rw [ht]; simp)

/-! Disjointness facts about the ASCII character classes. -/

theorem space_not_alnum (c : Char) (h : isSpaceC c = true) : isAlnumC c = false := by
  simp only [isSpaceC, Bool.or_eq_true, decide_eq_true_eq] at h
  simp only [isAlnumC, isLetterC, isDigitC, Bool.or_eq_false_iff,
    Bool.and_eq_false_iff, decide_eq_false_iff_not]
  omega

theorem space_not_wordcont (c : Char) (h : isSpaceC c = true) : isWordContC c = false := by
  simp only [isSpaceC, Bool.or_eq_true, decide_eq_true_eq] at h
  simp only [isWordContC, isLetterC, Bool.or_eq_false_iff,
    Bool.and_eq_false_iff, decide_eq_false_iff_not]
  omega

theorem space_not_digit (c : Char) (h : isSpaceC c = true) : isDigitC c = false := by
  simp only [isSpaceC, Bool.or_eq_true, decide_eq_true_eq] at h
  simp only [isDigitC, Bool.and_eq_false_iff, decide_eq_false_iff_not]
  omega

theorem alnum_not_space (c : Char) (h : isAlnumC c = true) : isSpaceC c = false := by
  simp only [isAlnumC, isLetterC, isDigitC, Bool.or_eq_true,
    Bool.and_eq_true, decide_eq_true_eq] at h
  simp only [isSpaceC, Bool.or_eq_false_iff, decide_eq_false_iff_not]
  omega

theorem wordcont_not_space (c : Char) (h : isWordContC c = true) : isSpaceC c = false := by
  simp only [isWordContC, isLetterC, Bool.or_eq_true,
    Bool.and_eq_true, decide_eq_true_eq] at h
  simp only [isSpaceC, Bool.or_eq_false_iff, decide_eq_false_iff_not]
  omega

theorem digit_not_letter (c : Char) (h : isDigitC c = true) : isLetterC c = false := by
  simp only [isDigitC, Bool.and_eq_true, decide_eq_true_eq] at h
  simp only [isLetterC, Bool.or_eq_false_iff, Bool.and_eq_false_iff,
    decide_eq_false_iff_not]
  omega

theorem letter_wordcont (c : Char) (h : isLetterC c = true) : isWordContC c = true := by
  simp [isWordContC, h]

theorem letter_alnum (c : Char) (h : isLetterC c = true) : isAlnumC c = true := by
  simp [isAlnumC, h]

theorem digit_alnum (c : Char) (h : isDigitC c = true) : isAlnumC c = true := by
  simp [isAlnumC, h]

theorem notword_not_letter (c : Char) (h : isWordCharC c = false) : isLetterC c = false := by
  simp only [isWordCharC, isAlnumC, Bool.or_eq_false_iff] at h
  exact h.1.1

theorem notword_not_digit (c : Char) (h : isWordCharC c = false) : isDigitC c = false := by
  simp only [isWordCharC, isAlnumC, Bool.or_eq_false_iff] at h
  exact h.1.2

theorem notword_not_alnum (c : Char) (h : isWordCharC c = false) : isAlnumC c = false := by
  simp only [isWordCharC, Bool.or_eq_false_iff] at h
  exact h.1

theorem alnum_not_sentpunct (c : Char) (h : isAlnumC c = true) : isSentPunctC c = false := by
  simp only [isAlnumC, isLetterC, isDigitC, Bool.or_eq_true,
    Bool.and_eq_true, decide_eq_true_eq] at h
  simp only [isSentPunctC, Bool.or_eq_false_iff, decide_eq_false_iff_not]
  refine ⟨⟨⟨⟨⟨?_, ?_⟩, ?_⟩, ?_⟩, ?_⟩, ?_⟩ <;>
    (intro hc; subst hc; revert h; decide)

/-! `spacedOkB`: every whitespace character is immediately followed by an
alphanumeric character (in particular there is no trailing whitespace). -/

def spacedOkB : List Char → Bool
  | [] => true
  | c :: l =>
    if isSpaceC c then
      (match l with
       | d :: _ => isAlnumC d && spacedOkB l
       | [] => false)
    else spacedOkB l

theorem spacedOkB_append (l1 l2 : List Char)
    (h1 : ∀ c ∈ l1, isSpaceC c = false) (h2 : spacedOkB l2 = true) :
    spacedOkB (l1 ++ l2) = true := by
  induction l1 with
  | nil => simpa using h2
  | cons c l1 ih =>
      have hc : isSpaceC c = false := h1 c (by simp)
      have := ih (fun x hx => h1 x (by simp [hx]))
      simpa [spacedOkB, hc] using this

theorem spacedOkB_cons_nonspace (c : Char) (l : List Char)
    (hc : isSpaceC c = false) : spacedOkB (c :: l) = spacedOkB l := by
  simp [spacedOkB, hc]

theorem spacedOkB_getLast (l : List Char) :
    spacedOkB l = true → ∀ c, l.getLast? = some c → isSpaceC c = false := by
  induction l with
  | nil => intro _ c hc; simp at hc
  | cons a l ih =>
      intro h c hc
      cases l with
      | nil =>
          simp at hc
          by_cases ha : isSpaceC a = true
          · rw [spacedOkB, ha] at h
            simp at h
          · rw [← hc]
            simpa using ha
      | cons b l' =>
          have hl : spacedOkB (b :: l') = true := by
            by_cases ha : isSpaceC a = true
            · rw [spacedOkB, ha] at h
              simp only [if_true, Bool.and_eq_true] at h
              exact h.2
            · rw [spacedOkB] at h
              simp only [Bool.not_eq_true] at ha
              rw [ha] at h
              simpa using h
          have : (a :: b :: l').getLast? = (b :: l').getLast? := by
            simp [List.getLast?]
          rw [this] at hc
          exact ih hl c hc


/-- On a `spacedOkB` string, `re.sub(r"\s+(P)", r"\1", ·)` is the identity
whenever `P` contains no alphanumeric character: every whitespace run is
followed by an alphanumeric character, so no run precedes a `P`-character. -/
theorem squeezeGo_id (q : Char → Bool) (hq : ∀ c, isAlnumC c = true → q c = false) :
    ∀ (n : Nat) (l : List Char), l.length ≤ n → spacedOkB l = true →
      squeezeGo q none l = l := by
  intro n
  induction n with
  | zero =>
      intro l hl _
      rw [List.length_eq_zero.mp (Nat.le_zero.mp hl)]
      rfl
  | succ n ih =>
      intro l hl hsp
      cases l with
      | nil => rfl
      | cons c rest =>
          by_cases hc : isSpaceC c = true
          · cases rest with
            | nil => simp [spacedOkB, hc] at hsp
            | cons d rest2 =>
                simp only [spacedOkB, hc, if_true, Bool.and_eq_true] at hsp
                obtain ⟨hd, hrest⟩ := hsp
                have hdns : isSpaceC d = false := alnum_not_space d hd
                have hqd : q d = false := hq d hd
                rw [squeezeGo, hc]
                simp only [if_true]
                rw [squeezeGo, hdns]
                simp only [Bool.false_eq_true, if_false, hqd]
                have hrest2 : spacedOkB rest2 = true := by
                  rw [hdns] at hrest
                  simpa using hrest
                rw [ih rest2 (by simp at hl; omega) hrest2]
                rfl
          · simp only [Bool.not_eq_true] at hc
            rw [spacedOkB_cons_nonspace c rest hc] at hsp
            rw [squeezeGo, hc]
            simp only [Bool.false_eq_true, if_false]
            rw [ih rest (by simp at hl; omega) hsp]

theorem dropWhile_eq_self_head (p : Char → Bool) (l : List Char)
    (h : ∀ c, l.head? = some c → p c = false) : l.dropWhile p = l := by
  cases l with
  | nil => rfl
  | cons c cs =>
      rw [List.dropWhile_cons, h c (by rfl)]
      simp

/-- `strip()` is the identity on a string whose first and last characters
are not whitespace. -/
theorem stripL_id (l : List Char)
    (h1 : ∀ c, l.head? = some c → isSpaceC c = false)
    (h2 : ∀ c, l.getLast? = some c → isSpaceC c = false) : stripL l = l := by
  unfold stripL
  rw [dropWhile_eq_self_head _ l h1]
  rw [dropWhile_eq_self_head _ l.reverse (by
    intro c hc
    rw [List.head?_reverse] at hc
    exact h2 c hc)]
  exact List.reverse_reverse l

/-! Well-formed tokens: the three shapes the tokenizer can produce. -/

/-- A word token: a letter followed by letters/hyphens/apostrophes. -/
def isWordShapeT (t : List Char) : Bool :=
  match t with
  | c :: cs => isLetterC c && cs.all isWordContC
  | [] => false

/-- A number token: a non-empty digit run. -/
def isNumShapeT (t : List Char) : Bool :=
  match t with
  | _ :: _ => t.all isDigitC
  | [] => false

/-- A punctuation token: a single character that is neither a word
character nor whitespace. -/
def isPunctShapeT (t : List Char) : Bool :=
  match t with
  | [c] => !isWordCharC c && !isSpaceC c
  | _ => false

/-- Any token the tokenizer can produce. -/
def wfTok (t : List Char) : Bool := isWordShapeT t || isNumShapeT t || isPunctShapeT t

theorem wordShape_spec (t : List Char) (h : isWordShapeT t = true) :
    ∃ c cs, t = c :: cs ∧ isLetterC c = true ∧ ∀ x ∈ cs, isWordContC x = true := by
  rcases t with _ | ⟨c, cs⟩
  · simp [isWordShapeT] at h
  · simp only [isWordShapeT, Bool.and_eq_true, List.all_eq_true] at h
    exact ⟨c, cs, rfl, h.1, h.2⟩

theorem numShape_spec (t : List Char) (h : isNumShapeT t = true) :
    t ≠ [] ∧ ∀ x ∈ t, isDigitC x = true := by
  rcases t with _ | ⟨c, cs⟩
  · simp [isNumShapeT] at h
  · simp only [isNumShapeT, List.all_eq_true] at h
    exact ⟨by simp, h⟩

theorem punctShape_spec (t : List Char) (h : isPunctShapeT t = true) :
    ∃ c, t = [c] ∧ isWordCharC c = false ∧ isSpaceC c = false := by
  rcases t with _ | ⟨c, _ | ⟨b, cs⟩⟩
  · simp [isPunctShapeT] at h
  · simp only [isPunctShapeT, Bool.and_eq_true, Bool.not_eq_true'] at h
    exact ⟨c, rfl, h.1, h.2⟩
  · simp [isPunctShapeT] at h

theorem wfTok_ne_nil (t : List Char) (h : wfTok t = true) : t ≠ [] := by
  simp only [wfTok, Bool.or_eq_true] at h
  rcases h with (h | h) | h
  · obtain ⟨c, cs, rfl, _, _⟩ := wordShape_spec t h
    simp
  · exact (numShape_spec t h).1
  · obtain ⟨c, rfl, _, _⟩ := punctShape_spec t h
    simp

theorem wfTok_no_space (t : List Char) (h : wfTok t = true) :
    ∀ c ∈ t, isSpaceC c = false := by
  intro c hc
  simp only [wfTok, Bool.or_eq_true] at h
  rcases h with (h | h) | h
  · obtain ⟨a, cs, rfl, ha, hcs⟩ := wordShape_spec t h
    rcases List.mem_cons.mp hc with rfl | hmem
    · exact wordcont_not_space c (letter_wordcont c ha)
    · exact wordcont_not_space c (hcs c hmem)
  · exact alnum_not_space c (digit_alnum c ((numShape_spec t h).2 c hc))
  · obtain ⟨a, rfl, _, ha⟩ := punctShape_spec t h
    rcases List.mem_cons.mp hc with rfl | hmem
    · exact ha
    · simp at hmem

/-- Every token produced by the (span form of the) tokenizer is
well-formed. -/
theorem tokenizeAux_wf :
    ∀ (n : Nat) (l : List Char), l.length ≤ n →
      ∀ t ∈ tokenizeAux l, wfTok t = true := by
  intro n
  induction n with
  | zero =>
      intro l hl t ht
      rw [List.length_eq_zero.mp (Nat.le_zero.mp hl)] at ht
      simp [tokenizeAux] at ht
  | succ n ih =>
      intro l hl t ht
      cases l with
      | nil => simp [tokenizeAux] at ht
      | cons c rest =>
          simp only [List.length_cons] at hl
          by_cases h1 : isLetterC c = true
          · rw [tokenizeAux] at ht
            simp only [h1, if_true, List.mem_cons] at ht
            rcases ht with rfl | ht
            · simp only [wfTok, Bool.or_eq_true]
              refine Or.inl (Or.inl ?_)
              simp only [isWordShapeT, Bool.and_eq_true, List.all_eq_true]
              exact ⟨h1, fun x hx => List.mem_takeWhile_imp hx⟩
            · exact ih (rest.dropWhile isWordContC)
                (le_trans (length_dropWhile_le_tok _ _) (by omega)) t ht
          · by_cases h2 : isDigitC c = true
            · rw [tokenizeAux] at ht
              simp only [h1, h2, Bool.false_eq_true, if_false, if_true,
                List.mem_cons] at ht
              rcases ht with rfl | ht
              · simp only [wfTok, Bool.or_eq_true]
                refine Or.inl (Or.inr ?_)
                simp only [isNumShapeT, List.all_eq_true]
                intro x hx
                rcases List.mem_cons.mp hx with rfl | hmem
                · exact h2
                · exact List.mem_takeWhile_imp hmem
              · exact ih (rest.dropWhile isDigitC)
                  (le_trans (length_dropWhile_le_tok _ _) (by omega)) t ht
            · by_cases h3 : (isWordCharC c || isSpaceC c) = true
              · rw [tokenizeAux] at ht
                simp only [h1, h2, h3, Bool.false_eq_true, if_false, if_true] at ht
                exact ih rest (by omega) t ht
              · rw [tokenizeAux] at ht
                simp only [h1, h2, h3, Bool.false_eq_true, if_false,
                  List.mem_cons] at ht
                rcases ht with rfl | ht
                · have h3' : isWordCharC c = false ∧ isSpaceC c = false := by
                    constructor
                    · rw [Bool.eq_false_iff]
                      intro hx
                      exact absurd (by simp [hx] : (isWordCharC c || isSpaceC c) = true) h3
                    · rw [Bool.eq_false_iff]
                      intro hx
                      exact absurd (by simp [hx] : (isWordCharC c || isSpaceC c) = true) h3
                  simp only [wfTok, Bool.or_eq_true]
                  refine Or.inr ?_
                  simp [isPunctShapeT, h3'.1, h3'.2]
                · exact ih rest (by omega) t ht

/-- Shorthand: every token in the list is well-formed. -/
def wfToks (ts : List (List Char)) : Prop := ∀ t ∈ ts, wfTok t = true

theorem spacedOkB_space_cons (c d : Char) (l : List Char) (hc : isSpaceC c = true) :
    spacedOkB (c :: d :: l) = (isAlnumC d && spacedOkB (d :: l)) := by
  simp [spacedOkB, hc]

theorem spacedOkB_joinContL (ts : List (List Char)) (h : wfToks ts) :
    spacedOkB (joinContL ts) = true := by
  induction ts with
  | nil => rfl
  | cons t ts ih =>
      have ht := h t (by simp)
      have hts : wfToks ts := fun x hx => h x (by simp [hx])
      have htail : spacedOkB (t ++ joinContL ts) = true :=
        spacedOkB_append t (joinContL ts) (wfTok_no_space t ht) (ih hts)
      rw [joinContL]
      by_cases ha : startsAlnumL t = true
      · simp only [ha, if_true]
        cases t with
        | nil => simp [startsAlnumL] at ha
        | cons c cs =>
            have hca : isAlnumC c = true := ha
            have hshape : ((SPc :: c :: cs) ++ joinContL ts) =
                SPc :: c :: (cs ++ joinContL ts) := by simp
            rw [hshape]
            have hsp : isSpaceC SPc = true := by decide
            rw [spacedOkB_space_cons SPc c (cs ++ joinContL ts) hsp]
            simp only [hca, Bool.true_and]
            simpa using htail
      · simp only [ha, Bool.false_eq_true, if_false]
        exact htail

theorem spacedOkB_joinRawL (ts : List (List Char)) (h : wfToks ts) :
    spacedOkB (joinRawL ts) = true := by
  cases ts with
  | nil => rfl
  | cons t ts =>
      rw [joinRawL]
      exact spacedOkB_append t (joinContL ts)
        (wfTok_no_space t (h t (by simp)))
        (spacedOkB_joinContL ts (fun x hx => h x (by simp [hx])))

theorem joinRawL_head_nonspace (ts : List (List Char)) (h : wfToks ts) :
    ∀ c, (joinRawL ts).head? = some c → isSpaceC c = false := by
  intro c hc
  cases ts with
  | nil => simp [joinRawL] at hc
  | cons t ts =>
      rw [joinRawL] at hc
      cases t with
      | nil =>
          exact absurd rfl (wfTok_ne_nil [] (h [] (by simp)))
      | cons a cs =>
          rw [List.cons_append] at hc
          simp only [List.head?_cons, Option.some.injEq] at hc
          subst hc
          exact wfTok_no_space (a :: cs) (h (a :: cs) (by simp)) a (by simp)

/-- The full cleanup (`re.sub` before sentence punctuation and `strip`) is
the identity on the raw join of well-formed tokens. -/
theorem scJoinChars_eq_joinRawL (ts : List (List Char)) (h : wfToks ts) :
    scJoinChars ts = joinRawL ts := by
  unfold scJoinChars squeezeBefore
  rw [foldl_scStep_eq_joinRaw ts (fun t ht => wfTok_ne_nil t (h t ht))]
  rw [squeezeGo_id isSentPunctC alnum_not_sentpunct (joinRawL ts).length
    (joinRawL ts) le_rfl (spacedOkB_joinRawL ts h)]
  exact stripL_id (joinRawL ts) (joinRawL_head_nonspace ts h)
    (spacedOkB_getLast (joinRawL ts) (spacedOkB_joinRawL ts h))

/-! Re-tokenizing a joined token list: word tokens absorb immediately
following apostrophe/hyphen punctuation tokens. -/

/-- Merge the following apostrophe/hyphen punctuation tokens into the word
token `w`. -/
def mergeGrab : List Char → List (List Char) → List Char × List (List Char)
  | w, [] => (w, [])
  | w, t :: ts => if t = [APOS] ∨ t = ['-'] then mergeGrab (w ++ t) ts else (w, t :: ts)

theorem mergeGrab_len : ∀ (ts : List (List Char)) (w : List Char),
    (mergeGrab w ts).2.length ≤ ts.length := by
  intro ts
  induction ts with
  | nil => intro w; simp [mergeGrab]
  | cons t ts ih =>
      intro w
      rw [mergeGrab]
      by_cases h : (t = [APOS] ∨ t = ['-'])
      · rw [if_pos h]
        have := ih (w ++ t)
        simp only [List.length_cons]
        omega
      · rw [if_neg h]

/-- The token list obtained by re-tokenizing the raw join. -/
def mergeT : List (List Char) → List (List Char)
  | [] => []
  | t :: ts =>
    if isWordShapeT t then
      (mergeGrab t ts).1 :: mergeT (mergeGrab t ts).2
    else t :: mergeT ts
termination_by l => l.length
decreasing_by
  · have := mergeGrab_len ts t
    simp only [List.length_cons]
    omega
  · simp only [List.length_cons]
    omega

theorem mergeGrab_spec : ∀ (ts : List (List Char)) (w : List Char),
    isWordShapeT w = true → wfToks ts →
    isWordShapeT (mergeGrab w ts).1 = true ∧
    wfToks (mergeGrab w ts).2 ∧
    (mergeGrab w ts).1 ++ joinContL (mergeGrab w ts).2 = w ++ joinContL ts := by
  intro ts
  induction ts with
  | nil => intro w hw _; rw [mergeGrab]; exact ⟨hw, fun x hx => by simp at hx, rfl⟩
  | cons t ts ih =>
      intro w hw hts
      rw [mergeGrab]
      by_cases h : (t = [APOS] ∨ t = ['-'])
      · rw [if_pos h]
        have hw' : isWordShapeT (w ++ t) = true := by
          obtain ⟨c, cs, rfl, hc, hcs⟩ := wordShape_spec w hw
          simp only [List.cons_append, isWordShapeT, Bool.and_eq_true,
            List.all_eq_true]
          refine ⟨hc, ?_⟩
          intro x hx
          rcases List.mem_append.mp hx with hx | hx
          · exact hcs x hx
          · rcases h with rfl | rfl
            · have : x = APOS := by simpa using hx
              subst this
              decide
            · have : x = '-' := by simpa using hx
              subst this
              decide
        obtain ⟨h1, h2, h3⟩ := ih (w ++ t) hw' (fun x hx => hts x (by simp [hx]))
        refine ⟨h1, h2, ?_⟩
        rw [h3]
        have hsep : startsAlnumL t = false := by
          rcases h with rfl | rfl <;> decide
        conv_rhs => rw [joinContL]
        rw [hsep]
        simp
      · rw [if_neg h]
        exact ⟨hw, hts, rfl⟩

theorem mergeT_spec : ∀ (n : Nat) (ts : List (List Char)), ts.length ≤ n →
    wfToks ts →
    wfToks (mergeT ts) ∧ joinContL (mergeT ts) = joinContL ts ∧
    joinRawL (mergeT ts) = joinRawL ts := by
  intro n
  induction n with
  | zero =>
      intro ts hl _
      rw [List.length_eq_zero.mp (Nat.le_zero.mp hl)]
      exact ⟨fun x hx => by rw [mergeT] at hx; simp at hx, by rw [mergeT], by rw [mergeT]⟩
  | succ n ih =>
      intro ts hl hts
      cases ts with
      | nil => exact ⟨fun x hx => by rw [mergeT] at hx; simp at hx, by rw [mergeT], by rw [mergeT]⟩
      | cons t ts' =>
          simp only [List.length_cons] at hl
          have ht := hts t (by simp)
          have hts' : wfToks ts' := fun x hx => hts x (by simp [hx])
          by_cases hw : isWordShapeT t = true
          · rw [mergeT, if_pos hw]
            obtain ⟨h1, h2, h3⟩ := mergeGrab_spec ts' t hw hts'
            have hlen := mergeGrab_len ts' t
            obtain ⟨m1, m2, m3⟩ := ih (mergeGrab t ts').2 (by omega) h2
            have hwfall : wfToks ((mergeGrab t ts').1 :: mergeT (mergeGrab t ts').2) := by
              intro x hx
              rcases List.mem_cons.mp hx with rfl | hx
              · simp [wfTok, h1]
              · exact m1 x hx
            have hsa : startsAlnumL (mergeGrab t ts').1 = true := by
              obtain ⟨c, cs, he, hc, _⟩ := wordShape_spec _ h1
              rw [he]
              exact letter_alnum c hc
            have hsa' : startsAlnumL t = true := by
              obtain ⟨c, cs, he, hc, _⟩ := wordShape_spec _ hw
              rw [he]
              exact letter_alnum c hc
            refine ⟨hwfall, ?_, ?_⟩
            · rw [joinContL, joinContL, hsa, hsa']
              simp only [if_true]
              rw [List.cons_append, List.cons_append, m2, h3]
            · rw [joinRawL, joinRawL, m2, h3]
          · rw [mergeT, if_neg hw]
            obtain ⟨m1, m2, m3⟩ := ih ts' (by omega) hts'
            refine ⟨?_, ?_, ?_⟩
            · intro x hx
              rcases List.mem_cons.mp hx with rfl | hx
              · exact ht
              · exact m1 x hx
            · rw [joinContL, joinContL, m2]
            · rw [joinRawL, joinRawL, m2]

/-! Unfolding lemmas for `tokenizeAux` on specific head characters, and a
`takeWhile`/`dropWhile` splitting lemma. -/

theorem tokenizeAux_nil : tokenizeAux [] = [] := by rw [tokenizeAux]

theorem tokenizeAux_space_cons (l : List Char) :
    tokenizeAux (SPc :: l) = tokenizeAux l := by
  have h1 : isLetterC SPc = false := by decide
  have h2 : isDigitC SPc = false := by decide
  have h3 : (isWordCharC SPc || isSpaceC SPc) = true := by decide
  rw [tokenizeAux]
  simp only [h1, h2, h3, Bool.false_eq_true, if_false, if_true]

theorem tokenizeAux_punct_cons (c : Char) (l : List Char)
    (h1 : isWordCharC c = false) (h2 : isSpaceC c = false) :
    tokenizeAux (c :: l) = [c] :: tokenizeAux l := by
  have hl : isLetterC c = false := notword_not_letter c h1
  have hd : isDigitC c = false := notword_not_digit c h1
  have h3 : (isWordCharC c || isSpaceC c) = false := by simp [h1, h2]
  rw [tokenizeAux]
  simp only [hl, hd, h3, Bool.false_eq_true, if_false]

theorem tokenizeAux_letter_cons (c : Char) (l : List Char) (h : isLetterC c = true) :
    tokenizeAux (c :: l) =
      (c :: l.takeWhile isWordContC) :: tokenizeAux (l.dropWhile isWordContC) := by
  rw [tokenizeAux]
  simp only [h, if_true]

theorem tokenizeAux_digit_cons (c : Char) (l : List Char)
    (hc : isDigitC c = true) (hl : isLetterC c = false) :
    tokenizeAux (c :: l) =
      (c :: l.takeWhile isDigitC) :: tokenizeAux (l.dropWhile isDigitC) := by
  rw [tokenizeAux]
  simp only [hc, hl, Bool.false_eq_true, if_false, if_true]

theorem span_append (p : Char → Bool) (xs ys : List Char)
    (h1 : ∀ x ∈ xs, p x = true)
    (h2 : ∀ y, ys.head? = some y → p y = false) :
    (xs ++ ys).takeWhile p = xs ∧ (xs ++ ys).dropWhile p = ys := by
  induction xs with
  | nil =>
      simp only [List.nil_append]
      cases ys with
      | nil => exact ⟨rfl, rfl⟩
      | cons y ys' =>
          have hy : p y = false := h2 y rfl
          rw [List.takeWhile_cons, List.dropWhile_cons, hy]
          simp
  | cons x xs ih =>
      have hx : p x = true := h1 x (by simp)
      have hih := ih (fun z hz => h1 z (by simp [hz]))
      rw [List.cons_append, List.takeWhile_cons, List.dropWhile_cons, hx]
      simp only [if_true]
      exact ⟨by rw [hih.1], hih.2⟩

/-! Shape corollaries. -/

theorem wordShape_startsAlnum (t : List Char) (h : isWordShapeT t = true) :
    startsAlnumL t = true := by
  obtain ⟨c, cs, rfl, hc, _⟩ := wordShape_spec t h
  exact letter_alnum c hc

theorem numShape_startsAlnum (t : List Char) (h : isNumShapeT t = true) :
    startsAlnumL t = true := by
  obtain ⟨hne, hd⟩ := numShape_spec t h
  cases t with
  | nil => simp at hne
  | cons c cs => exact digit_alnum c (hd c (by simp))

theorem punctShape_startsAlnum (t : List Char) (h : isPunctShapeT t = true) :
    startsAlnumL t = false := by
  obtain ⟨p, rfl, hw, _⟩ := punctShape_spec t h
  exact notword_not_alnum p hw

theorem numShape_not_wordShape (t : List Char) (h : isNumShapeT t = true) :
    isWordShapeT t = false := by
  obtain ⟨hne, hd⟩ := numShape_spec t h
  cases t with
  | nil => simp at hne
  | cons c cs =>
      simp [isWordShapeT, digit_not_letter c (hd c (by simp))]

theorem punctShape_not_wordShape (t : List Char) (h : isPunctShapeT t = true) :
    isWordShapeT t = false := by
  obtain ⟨p, rfl, hw, _⟩ := punctShape_spec t h
  simp [isWordShapeT, notword_not_letter p hw]

theorem wordShape_not_special (t : List Char) (h : isWordShapeT t = true) :
    ¬(t = [APOS] ∨ t = ['-']) := by
  intro hc
  rcases hc with rfl | rfl <;> revert h <;> decide

theorem numShape_not_special (t : List Char) (h : isNumShapeT t = true) :
    ¬(t = [APOS] ∨ t = ['-']) := by
  intro hc
  rcases hc with rfl | rfl <;> revert h <;> decide

/-- The three mutually exclusive token shapes. -/
theorem wfTok_cases (t : List Char) (h : wfTok t = true) :
    isWordShapeT t = true ∨ (isNumShapeT t = true ∧ isWordShapeT t = false) ∨
    (isPunctShapeT t = true ∧ isWordShapeT t = false) := by
  simp only [wfTok, Bool.or_eq_true] at h
  rcases h with (h | h) | h
  · exact Or.inl h
  · exact Or.inr (Or.inl ⟨h, numShape_not_wordShape t h⟩)
  · exact Or.inr (Or.inr ⟨h, punctShape_not_wordShape t h⟩)

/-- The head of `joinContL ts` is never a digit (it is either the separator
space or a punctuation character). -/
theorem joinContL_head_not_digit (ts : List (List Char)) (h : wfToks ts) :
    ∀ y, (joinContL ts).head? = some y → isDigitC y = false := by
  intro y hy
  cases ts with
  | nil => simp [joinContL] at hy
  | cons t ts' =>
      rw [joinContL] at hy
      by_cases ha : startsAlnumL t = true
      · rw [ha] at hy
        simp only [if_true, List.cons_append, List.head?_cons,
          Option.some.injEq] at hy
        subst hy
        decide
      · have ha' : startsAlnumL t = false := by
          rw [Bool.not_eq_true] at ha
          exact ha
        rw [ha'] at hy
        simp only [Bool.false_eq_true, if_false] at hy
        have ht := h t (by simp)
        rcases wfTok_cases t ht with hw | ⟨hn, _⟩ | ⟨hp, _⟩
        · rw [wordShape_startsAlnum t hw] at ha'
          simp at ha'
        · rw [numShape_startsAlnum t hn] at ha'
          simp at ha'
        · obtain ⟨p, rfl, hpw, _⟩ := punctShape_spec t hp
          simp only [List.cons_append, List.head?_cons, Option.some.injEq] at hy
          subst hy
          exact notword_not_digit _ hpw

theorem char_toNat_inj (c d : Char) (h : c.toNat = d.toNat) : c = d :=
  Char.ext (UInt32.ext h)

theorem punct_not_wordcont (p : Char) (hw1 : isWordCharC p = false)
    (hsp : ¬([p] = [APOS] ∨ [p] = ['-'])) : isWordContC p = false := by
  simp only [isWordContC, Bool.or_eq_false_iff, decide_eq_false_iff_not]
  refine ⟨⟨notword_not_letter p hw1, ?_⟩, ?_⟩
  · intro h45
    exact hsp (Or.inr (by rw [char_toNat_inj p '-' (by rw [h45]; rfl)]))
  · intro h39
    exact hsp (Or.inl (by rw [char_toNat_inj p APOS (by rw [h39]; rfl)]))

/-- Base case of `tokenize_joinCont`: the empty token list. -/
theorem tokenize_joinCont_nil :
    (tokenizeAux (joinContL []) = mergeT []) ∧
    (∀ t, isNumShapeT t = true →
      tokenizeAux (t ++ joinContL []) = t :: mergeT []) ∧
    (∀ w, isWordShapeT w = true →
      tokenizeAux (w ++ joinContL []) =
        (mergeGrab w []).1 :: mergeT (mergeGrab w []).2) := by
  refine ⟨?_, ?_, ?_⟩
  · show tokenizeAux [] = mergeT []
    rw [tokenizeAux_nil, mergeT]
  · intro t ht
    obtain ⟨hne, hd⟩ := numShape_spec t ht
    cases t with
    | nil => simp at hne
    | cons c cs =>
        have hcd : isDigitC c = true := hd c (by simp)
        have h1 : cs.takeWhile isDigitC = cs :=
          List.takeWhile_eq_self_iff.mpr (fun x hx => hd x (by simp [hx]))
        have h2 : cs.dropWhile isDigitC = [] :=
          List.dropWhile_eq_nil_iff.mpr (fun x hx => hd x (by simp [hx]))
        show tokenizeAux ((c :: cs) ++ []) = (c :: cs) :: mergeT []
        rw [List.append_nil]
        rw [tokenizeAux_digit_cons c cs hcd (digit_not_letter c hcd), h1, h2,
          tokenizeAux_nil, mergeT]
  · intro w hw
    obtain ⟨c, cs, rfl, hc, hcs⟩ := wordShape_spec w hw
    have h1 : cs.takeWhile isWordContC = cs :=
      List.takeWhile_eq_self_iff.mpr hcs
    have h2 : cs.dropWhile isWordContC = [] :=
      List.dropWhile_eq_nil_iff.mpr hcs
    show tokenizeAux ((c :: cs) ++ []) =
      (mergeGrab (c :: cs) []).1 :: mergeT (mergeGrab (c :: cs) []).2
    rw [List.append_nil, mergeGrab]
    rw [tokenizeAux_letter_cons c cs hc, h1, h2, tokenizeAux_nil, mergeT]

/-- Re-tokenizing the raw join of well-formed tokens yields `mergeT`:
each word token absorbs immediately following apostrophe/hyphen tokens,
and everything else re-tokenizes to itself. -/
theorem tokenize_joinCont :
    ∀ (n : Nat) (ts : List (List Char)), ts.length ≤ n → wfToks ts →
      (tokenizeAux (joinContL ts) = mergeT ts) ∧
      (∀ t, isNumShapeT t = true →
        tokenizeAux (t ++ joinContL ts) = t :: mergeT ts) ∧
      (∀ w, isWordShapeT w = true →
        tokenizeAux (w ++ joinContL ts) =
          (mergeGrab w ts).1 :: mergeT (mergeGrab w ts).2) := by
  intro n
  induction n with
  | zero =>
      intro ts hl _
      rw [List.length_eq_zero.mp (Nat.le_zero.mp hl)]
      exact tokenize_joinCont_nil
  | succ n ih =>
      intro ts hl hts
      cases ts with
      | nil => exact tokenize_joinCont_nil
      | cons t ts' =>
          simp only [List.length_cons] at hl
          have hts' : wfToks ts' := fun x hx => hts x (by simp [hx])
          have iht := ih ts' (by omega) hts'
          have ht := hts t (by simp)
          have hQ : tokenizeAux (joinContL (t :: ts')) = mergeT (t :: ts') := by
            rcases wfTok_cases t ht with hw | ⟨hn, hnw⟩ | ⟨hp, hpw⟩
            · have hsa := wordShape_startsAlnum t hw
              rw [joinContL, hsa]
              simp only [if_true]
              rw [List.cons_append, tokenizeAux_space_cons, iht.2.2 t hw]
              have hmt : mergeT (t :: ts') =
                  (mergeGrab t ts').1 :: mergeT (mergeGrab t ts').2 := by
                rw [mergeT, if_pos hw]
              rw [hmt]
            · have hsa := numShape_startsAlnum t hn
              rw [joinContL, hsa]
              simp only [if_true]
              rw [List.cons_append, tokenizeAux_space_cons, iht.2.1 t hn]
              have hmt : mergeT (t :: ts') = t :: mergeT ts' := by
                rw [mergeT, if_neg (by simp [hnw])]
              rw [hmt]
            · obtain ⟨p, rfl, hw1, hs1⟩ := punctShape_spec t hp
              have hsa := punctShape_startsAlnum _ hp
              rw [joinContL, hsa]
              simp only [Bool.false_eq_true, if_false]
              rw [List.singleton_append, tokenizeAux_punct_cons p _ hw1 hs1, iht.1]
              have hmt : mergeT ([p] :: ts') = [p] :: mergeT ts' := by
                rw [mergeT, if_neg (by simp [hpw])]
              rw [hmt]
          refine ⟨hQ, ?_, ?_⟩
          · intro u hu
            obtain ⟨hne, hd⟩ := numShape_spec u hu
            cases u with
            | nil => simp at hne
            | cons c cs =>
                have hcd : isDigitC c = true := hd c (by simp)
                have hspan := span_append isDigitC cs (joinContL (t :: ts'))
                  (fun x hx => hd x (by simp [hx]))
                  (joinContL_head_not_digit (t :: ts') hts)
                rw [List.cons_append,
                  tokenizeAux_digit_cons c _ hcd (digit_not_letter c hcd),
                  hspan.1, hspan.2, hQ]
          · intro w hw
            obtain ⟨c, cs, rfl, hc, hcs⟩ := wordShape_spec w hw
            rcases wfTok_cases t ht with hw2 | ⟨hn2, hnw2⟩ | ⟨hp2, hpw2⟩
            · have hsa := wordShape_startsAlnum t hw2
              rw [joinContL, hsa]
              simp only [if_true]
              have hspan := span_append isWordContC cs ((SPc :: t) ++ joinContL ts')
                hcs (by
                  intro y hy
                  rw [List.cons_append, List.head?_cons] at hy
                  simp only [Option.some.injEq] at hy
                  exact hy ▸ (by decide : isWordContC SPc = false))
              rw [List.cons_append, tokenizeAux_letter_cons c _ hc,
                hspan.1, hspan.2]
              rw [List.cons_append, tokenizeAux_space_cons, iht.2.2 t hw2]
              have hgrab : mergeGrab (c :: cs) (t :: ts') = (c :: cs, t :: ts') := by
                rw [mergeGrab, if_neg (wordShape_not_special t hw2)]
              rw [hgrab]
              have hmt : mergeT (t :: ts') =
                  (mergeGrab t ts').1 :: mergeT (mergeGrab t ts').2 := by
                rw [mergeT, if_pos hw2]
              show (c :: cs) :: (mergeGrab t ts').1 :: mergeT (mergeGrab t ts').2 =
                (c :: cs) :: mergeT (t :: ts')
              rw [hmt]
            · have hsa := numShape_startsAlnum t hn2
              rw [joinContL, hsa]
              simp only [if_true]
              have hspan := span_append isWordContC cs ((SPc :: t) ++ joinContL ts')
                hcs (by
                  intro y hy
                  rw [List.cons_append, List.head?_cons] at hy
                  simp only [Option.some.injEq] at hy
                  exact hy ▸ (by decide : isWordContC SPc = false))
              rw [List.cons_append, tokenizeAux_letter_cons c _ hc,
                hspan.1, hspan.2]
              rw [List.cons_append, tokenizeAux_space_cons, iht.2.1 t hn2]
              have hgrab : mergeGrab (c :: cs) (t :: ts') = (c :: cs, t :: ts') := by
                rw [mergeGrab, if_neg (numShape_not_special t hn2)]
              rw [hgrab]
              have hmt : mergeT (t :: ts') = t :: mergeT ts' := by
                rw [mergeT, if_neg (by simp [hnw2])]
              show (c :: cs) :: t :: mergeT ts' = (c :: cs) :: mergeT (t :: ts')
              rw [hmt]
            · obtain ⟨p, rfl, hw1, hs1⟩ := punctShape_spec t hp2
              have hsa := punctShape_startsAlnum _ hp2
              rw [joinContL, hsa]
              simp only [Bool.false_eq_true, if_false]
              by_cases hsp : ([p] = [APOS] ∨ [p] = ['-'])
              · have hassoc : (c :: cs) ++ ([p] ++ joinContL ts') =
                    ((c :: cs) ++ [p]) ++ joinContL ts' := by simp
                rw [hassoc]
                have hw' : isWordShapeT ((c :: cs) ++ [p]) = true := by
                  simp only [List.cons_append, isWordShapeT, Bool.and_eq_true,
                    List.all_eq_true]
                  refine ⟨hc, ?_⟩
                  intro x hx
                  rcases List.mem_append.mp hx with hx | hx
                  · exact hcs x hx
                  · have hxp : x = p := by simpa using hx
                    subst hxp
                    rcases hsp with hp' | hp'
                    · have : x = APOS := by simpa using hp'
                      subst this
                      decide
                    · have : x = '-' := by simpa using hp'
                      subst this
                      decide
                rw [iht.2.2 _ hw']
                have hgrab : mergeGrab (c :: cs) ([p] :: ts') =
                    mergeGrab ((c :: cs) ++ [p]) ts' := by
                  rw [mergeGrab, if_pos hsp]
                rw [hgrab]
              · have hpnc : isWordContC p = false := punct_not_wordcont p hw1 hsp
                rw [List.singleton_append, List.cons_append,
                  tokenizeAux_letter_cons c _ hc]
                have hspan := span_append isWordContC cs (p :: joinContL ts')
                  hcs (by
                    intro y hy
                    simp only [List.head?_cons, Option.some.injEq] at hy
                    exact hy ▸ hpnc)
                rw [hspan.1, hspan.2]
                rw [tokenizeAux_punct_cons p _ hw1 hs1, iht.1]
                have hgrab : mergeGrab (c :: cs) ([p] :: ts') =
                    (c :: cs, [p] :: ts') := by
                  rw [mergeGrab, if_neg hsp]
                rw [hgrab]
                have hmt : mergeT ([p] :: ts') = [p] :: mergeT ts' := by
                  rw [mergeT, if_neg (by simp [hpw2])]
                show (c :: cs) :: [p] :: mergeT ts' = (c :: cs) :: mergeT ([p] :: ts')
                rw [hmt]

theorem data_mk (l : List Char) : (String.mk l).data = l := rfl

theorem map_mk_data (T : List (List Char)) :
    (T.map String.mk).map String.data = T := by
  induction T with
  | nil => rfl
  | cons t ts ihh => simp [data_mk, ihh]

/-- Re-tokenizing the raw join from the first token on. -/
theorem tokenize_joinRaw (ts : List (List Char)) (h : wfToks ts) :
    tokenizeAux (joinRawL ts) = mergeT ts := by
  cases ts with
  | nil =>
      show tokenizeAux [] = mergeT []
      rw [tokenizeAux_nil, mergeT]
  | cons t ts' =>
      have iht := tokenize_joinCont ts'.length ts' le_rfl
        (fun x hx => h x (by simp [hx]))
      have ht := h t (by simp)
      rw [joinRawL]
      rcases wfTok_cases t ht with hw | ⟨hn, hnw⟩ | ⟨hp, hpw⟩
      · rw [iht.2.2 t hw]
        have hmt : mergeT (t :: ts') =
            (mergeGrab t ts').1 :: mergeT (mergeGrab t ts').2 := by
          rw [mergeT, if_pos hw]
        rw [hmt]
      · rw [iht.2.1 t hn]
        have hmt : mergeT (t :: ts') = t :: mergeT ts' := by
          rw [mergeT, if_neg (by simp [hnw])]
        rw [hmt]
      · obtain ⟨p, rfl, hw1, hs1⟩ := punctShape_spec t hp
        rw [List.singleton_append, tokenizeAux_punct_cons p _ hw1 hs1, iht.1]
        have hmt : mergeT ([p] :: ts') = [p] :: mergeT ts' := by
          rw [mergeT, if_neg (by simp [hpw])]
        rw [hmt]

/-- **C6**: joining is idempotent with respect to tokenization: for every
input string `s`, the token sequence `_retok s` satisfies
`join(tokenize(join(tokens))) = join(tokens)` — the joiner's output is a
fixed point of a further tokenize-then-join pass.  (Re-tokenizing the
joined string can merge a word token with a following apostrophe or hyphen
punctuation token, but the merged token list joins to the same string.) -/
theorem C6_join_idempotent (s : String) :
    spell_checker._smart_join (spell_checker._retok
      (spell_checker._smart_join (spell_checker._retok s))) =
    spell_checker._smart_join (spell_checker._retok s) := by
  have hT : wfToks (tokenizeAux s.data) :=
    fun t ht => tokenizeAux_wf s.data.length s.data le_rfl t ht
  have hinner : spell_checker._smart_join (spell_checker._retok s) =
      String.mk (joinRawL (tokenizeAux s.data)) := by
    unfold spell_checker._smart_join spell_checker._retok
    rw [map_mk_data, findallGo_eq_tokenizeAux, scJoinChars_eq_joinRawL _ hT]
  rw [hinner]
  obtain ⟨hmwf, _, hmjoin⟩ := mergeT_spec (tokenizeAux s.data).length
    (tokenizeAux s.data) le_rfl hT
  have houter : spell_checker._retok (String.mk (joinRawL (tokenizeAux s.data))) =
      (mergeT (tokenizeAux s.data)).map String.mk := by
    unfold spell_checker._retok
    rw [data_mk, findallGo_eq_tokenizeAux, tokenize_joinRaw _ hT]
  rw [houter]
  unfold spell_checker._smart_join
  rw [map_mk_data, scJoinChars_eq_joinRawL _ hmwf, hmjoin]
